import Mathlib

/-!
Shallow embedding of `vggt_to_colmap.py` (the VGGT to COLMAP converter).

Modelling conventions:
* Python/NumPy float64 values are modelled as exact rationals (`ℚ`); all the
  spec claims are stated "modulo float64 precision", so the idealized rational
  semantics is the reference semantics.
* A possibly non-finite float (NaN or infinity, as tested by `np.isfinite`)
  is modelled as `Option ℚ`, with `none` standing for any non-finite value.
* NumPy `(S, H, W, ...)` arrays are modelled as nested lists; indexing uses
  `List.getD`, which is total.  Out-of-range accesses (which raise in Python)
  only arise for shape-mismatched inputs; theorems that need well-shaped
  inputs carry that as an explicit hypothesis.
* Python `dict` keyed by `int` is modelled as an association list searched
  front to back (`dictFind`); insertion appends.
* CPython's `hash` builtin on integers and on tuples of integers is modelled
  bit-exactly (`pyHashInt`, `pyHashTuple3`) following CPython's
  `long_hash` (modulus 2^61 - 1, -1 mapped to -2) and the xxHash-style tuple
  combiner of CPython >= 3.8 (`tuplehash` in Objects/tupleobject.c).
-/

namespace VggtToColmap

abbrev Vec3Q := ℚ × ℚ × ℚ

/-- A possibly non-finite float64 coordinate: `none` models NaN or ±inf. -/
abbrev PyFloat := Option ℚ

abbrev PyVec3 := PyFloat × PyFloat × PyFloat

/-- RGB pixel, three channel values (uint8 in the real pipeline). -/
abbrev RGB := ℕ × ℕ × ℕ

/-- `np.round` on a float64 value: round half to even (banker's rounding). -/
def roundHalfEven (q : ℚ) : ℤ :=
  let f := ⌊q⌋
  let r := q - (f : ℚ)
  if r < 1/2 then f
  else if 1/2 < r then f + 1
  else if f % 2 = 0 then f else f + 1

/-- CPython `hash` of an `int`: reduce modulo 2^61 - 1 (sign preserved),
then map -1 to -2 (`long_hash` in Objects/longobject.c). -/
def pyHashInt (n : ℤ) : ℤ :=
  let P : ℤ := 2 ^ 61 - 1
  let h := if 0 ≤ n then n % P else -((-n) % P)
  if h = -1 then -2 else h

/-- Reinterpret a CPython hash value (a signed 64-bit quantity) as the
unsigned 64-bit `Py_uhash_t` used by the tuple combiner. -/
def toU64 (n : ℤ) : ℕ := (n % (2 ^ 64 : ℤ)).toNat

/-- Reinterpret an unsigned 64-bit accumulator as a signed `Py_hash_t`. -/
def fromU64 (n : ℕ) : ℤ :=
  if n < 2 ^ 63 then (n : ℤ) else (n : ℤ) - 2 ^ 64

def xxPrime1 : ℕ := 11400714785074694791
def xxPrime2 : ℕ := 14029467366897019727
def xxPrime5 : ℕ := 2870177450012600261

/-- `_PyHASH_XXROTATE`: rotate a 64-bit accumulator left by 31. -/
def xxRotate (x : ℕ) : ℕ :=
  (((x % 2 ^ 64) <<< 31) % 2 ^ 64) ||| ((x % 2 ^ 64) >>> 33)

/-- One lane of CPython's tuple hash loop:
`acc += lane * XXPRIME_2; acc = XXROTATE(acc); acc *= XXPRIME_1`. -/
def tupleHashLane (acc lane : ℕ) : ℕ :=
  (xxRotate ((acc + lane * xxPrime2) % 2 ^ 64) * xxPrime1) % 2 ^ 64

/-- CPython `hash` of a 3-tuple of ints (`tuplehash`, CPython >= 3.8).
Integer hashes are never -1 (`pyHashInt` maps -1 to -2), so the
error-propagation branch of the C loop is unreachable and omitted. -/
def pyHashTuple3 (a b c : ℤ) : ℤ :=
  let acc0 := xxPrime5
  let acc1 := tupleHashLane acc0 (toU64 (pyHashInt a))
  let acc2 := tupleHashLane acc1 (toU64 (pyHashInt b))
  let acc3 := tupleHashLane acc2 (toU64 (pyHashInt c))
  let acc4 := (acc3 + ((3 : ℕ) ^^^ (xxPrime5 ^^^ 3527539))) % 2 ^ 64
  if acc4 = 2 ^ 64 - 1 then 1546275796 else fromU64 acc4

/-- The quantized integer triple of `hash_point`:
`tuple(np.round(point * scale).astype(int))`. -/
def quantize_point (point : Vec3Q) (scale : ℚ) : ℤ × ℤ × ℤ :=
  (roundHalfEven (point.1 * scale),
   roundHalfEven (point.2.1 * scale),
   roundHalfEven (point.2.2 * scale))

/-- `hash_point(point, scale=100)`: quantize the coordinates and take the
Python hash of the resulting integer triple. -/
def hash_point (point : Vec3Q) (scale : ℚ) : ℤ :=
  let q := quantize_point point scale
  pyHashTuple3 q.1 q.2.1 q.2.2

/-- `is_sky_point(point, rgb)`: high up (second coordinate above 1.0) and
distinctly blue-dominant. -/
def is_sky_point (point : Vec3Q) (rgb : RGB) : Bool :=
  1 < point.2.1 && (1.2 : ℚ) * rgb.1 < rgb.2.2 && (1.2 : ℚ) * rgb.2.1 < rgb.2.2

/-- `np.mean(rgb)` for a 3-channel pixel. -/
def rgbMean (rgb : RGB) : ℚ := ((rgb.1 : ℚ) + rgb.2.1 + rgb.2.2) / 3

/-- Population variance of the three channels; `np.std(rgb) < 15` is stated
below as `rgbVariance rgb < 225` since `std = sqrt variance` and both sides
are nonnegative. -/
def rgbVariance (rgb : RGB) : ℚ :=
  (((rgb.1 : ℚ) - rgbMean rgb) ^ 2 + ((rgb.2.1 : ℚ) - rgbMean rgb) ^ 2 +
    ((rgb.2.2 : ℚ) - rgbMean rgb) ^ 2) / 3

/-- `is_black_bg_point(rgb, threshold=30)`: mean of the channels below the
threshold. -/
def is_black_bg_point (rgb : RGB) (threshold : ℚ) : Bool :=
  rgbMean rgb < threshold

/-- `is_white_bg_point(rgb, threshold=230)`: mean above the threshold and
`np.std(rgb) < 15`, the latter expressed on the variance. -/
def is_white_bg_point (rgb : RGB) (threshold : ℚ) : Bool :=
  threshold < rgbMean rgb && rgbVariance rgb < 225

/-- A 3x3 matrix of float64 entries (row major). -/
structure Mat3 where
  m00 : ℚ
  m01 : ℚ
  m02 : ℚ
  m10 : ℚ
  m11 : ℚ
  m12 : ℚ
  m20 : ℚ
  m21 : ℚ
  m22 : ℚ
deriving Repr, DecidableEq

/-- One camera-to-world extrinsic, already sliced as the code does:
`r` is `extrinsics[i, :3, :3]` and `t` is `extrinsics[i, :3, 3]`. -/
structure Extrinsic34 where
  r : Mat3
  t : Vec3Q
deriving Repr, DecidableEq

/-- A quaternion in scipy order `[x, y, z, w]` (what `Rotation.as_quat`
returns). -/
structure QuatXYZW where
  x : ℚ
  y : ℚ
  z : ℚ
  w : ℚ
deriving Repr, DecidableEq

/-- A quaternion in COLMAP order `[w, x, y, z]`. -/
structure QuatWXYZ where
  w : ℚ
  x : ℚ
  y : ℚ
  z : ℚ
deriving Repr, DecidableEq

/-- `extrinsic_to_colmap_format(extrinsics)`.  The scipy matrix-to-quaternion
conversion `Rotation.from_matrix(R).as_quat()` is an external library call
whose numeric output the code treats as opaque; it is abstracted as the
parameter `as_quat` (returning scipy's `[x, y, z, w]` order).  The code then
builds `np.array([quat[3], quat[0], quat[1], quat[2]])` and keeps `t` as is. -/
def extrinsic_to_colmap_format (as_quat : Mat3 → QuatXYZW)
    (extrinsics : List Extrinsic34) : List QuatWXYZ × List Vec3Q :=
  (extrinsics.map fun e =>
      let quat := as_quat e.r
      QuatWXYZ.mk quat.w quat.x quat.y quat.z,
   extrinsics.map fun e => e.t)

/-- The aggregation engine inputs (the `predictions` dictionary after the
model stage, restricted to the keys the aggregator and writers read).
`depth` models the `(S, H, W, 1)` depth array with the trailing singleton
axis dropped, `depth_conf` the `(S, H, W)` confidence array,
`world_points_from_depth` the `(S, H, W, 3)` world point grid (each
coordinate an `Option ℚ`, `none` = non-finite), and `original_images` the
list of RGB images at their own resolutions. -/
structure Predictions where
  depth : List (List (List ℚ))
  depth_conf : List (List (List ℚ))
  world_points_from_depth : List (List (List PyVec3))
  original_images : List (List (List RGB))
  intrinsic : List Mat3
  extrinsic : List Extrinsic34
deriving Repr

/-- `np.max(predictions["depth_conf"])` over all images and pixels.
(`np.max` of an empty array raises in Python; the `[]` arm is an arbitrary
total-function default.) -/
def globalMaxConf (preds : Predictions) : ℚ :=
  match preds.depth_conf.flatten.flatten with
  | [] => 0
  | c :: cs => cs.foldl max c

/-- Grid height of image `i`: `world_points[img_idx].shape[0]`. -/
def gridH (preds : Predictions) (i : ℕ) : ℕ :=
  (preds.world_points_from_depth.getD i []).length

/-- Grid width of image `i`: `world_points[img_idx].shape[1]`. -/
def gridW (preds : Predictions) (i : ℕ) : ℕ :=
  ((preds.world_points_from_depth.getD i []).getD 0 []).length

/-- `confidences[img_idx, y, x]`. -/
def confAt (preds : Predictions) (i y x : ℕ) : ℚ :=
  ((preds.depth_conf.getD i []).getD y []).getD x 0

/-- `world_points[img_idx, y, x]`. -/
def pointAt (preds : Predictions) (i y x : ℕ) : PyVec3 :=
  ((preds.world_points_from_depth.getD i []).getD y []).getD x (none, none, none)

/-- The original image of index `i`. -/
def origImage (preds : Predictions) (i : ℕ) : List (List RGB) :=
  preds.original_images.getD i []

/-- `orig_h` for image `i`. -/
def origH (preds : Predictions) (i : ℕ) : ℕ := (origImage preds i).length

/-- `orig_w` for image `i`. -/
def origW (preds : Predictions) (i : ℕ) : ℕ :=
  ((origImage preds i).getD 0 []).length

/-- `scale_y = orig_h / h` for image `i` (Python true division). -/
def scaleY (preds : Predictions) (i : ℕ) : ℚ :=
  (origH preds i : ℚ) / (gridH preds i : ℚ)

/-- `scale_x = orig_w / w` for image `i`. -/
def scaleX (preds : Predictions) (i : ℕ) : ℚ :=
  (origW preds i : ℚ) / (gridW preds i : ℚ)

/-- `orig_y = min(int(y * scale_y), orig_h - 1)`; `int()` truncates toward
zero, which on the nonnegative product is the floor. -/
def origYofGrid (preds : Predictions) (i y : ℕ) : ℕ :=
  min (⌊(y : ℚ) * scaleY preds i⌋.toNat) (origH preds i - 1)

/-- `orig_x = min(int(x * scale_x), orig_w - 1)`. -/
def origXofGrid (preds : Predictions) (i x : ℕ) : ℕ :=
  min (⌊(x : ℚ) * scaleX preds i⌋.toNat) (origW preds i - 1)

/-- `rgb = orig_img[orig_y, orig_x]`. -/
def colorAt (preds : Predictions) (i y x : ℕ) : RGB :=
  ((origImage preds i).getD (origYofGrid preds i y) []).getD
    (origXofGrid preds i x) (0, 0, 0)

/-- `range(0, n, stride)`: the `⌈n / stride⌉` multiples of `stride`
below `n`, in ascending order. -/
def strideRange (n stride : ℕ) : List ℕ :=
  (List.range ((n + stride - 1) / stride)).map (· * stride)

/-- The flattened iteration space of the aggregation loops: images in
ascending order, within an image rows (`y`) then columns (`x`) stepping by
`stride`.  Each element is `(img_idx, y, x)`. -/
def allSamples (preds : Predictions) (stride : ℕ) : List (ℕ × ℕ × ℕ) :=
  (List.range preds.world_points_from_depth.length).flatMap fun i =>
    (strideRange (gridH preds i) stride).flatMap fun y =>
      (strideRange (gridW preds i) stride).map fun x => (i, y, x)

/-- One entry of the `points3D` list built by the aggregator. -/
structure PointEntry where
  id : ℕ
  xyz : Vec3Q
  rgb : RGB
  error : ℚ
  track : List (ℕ × ℕ)
deriving Repr, DecidableEq

/-- The mutable aggregation state of `filter_and_prepare_points`:
the growing point list, the dict mapping a point hash to its index, and the
per-image 2D keypoint lists (entries `(x, y, point3D index)`). -/
structure AggState where
  points3D : List PointEntry
  point_indices : List (ℤ × ℕ)
  image_points2D : List (List (ℕ × ℕ × ℕ))
deriving Repr, DecidableEq

/-- Lookup in the Python dict `point_indices` (modelled as an association
list searched front to back). -/
def dictFind (d : List (ℤ × ℕ)) (k : ℤ) : Option ℕ :=
  (d.find? fun e => e.1 == k).map (·.2)

/-- `ls[i].append(a)` on a list of lists (a no-op out of range; Python would
raise there, which only happens for shape-mismatched inputs). -/
def appendAt {α : Type} : List (List α) → ℕ → α → List (List α)
  | [], _, _ => []
  | l :: ls, 0, a => (l ++ [a]) :: ls
  | l :: ls, Nat.succ i, a => l :: appendAt ls i a

/-- `points3D[idx]["track"].append(e)` (a no-op out of range). -/
def appendTrack : List PointEntry → ℕ → ℕ × ℕ → List PointEntry
  | [], _, _ => []
  | p :: ps, 0, e => { p with track := p.track ++ [e] } :: ps
  | p :: ps, Nat.succ i, e => p :: appendTrack ps i e

/-- `len(image_points2D[img_idx])`, the running keypoint count of image
`img_idx`. -/
def kpCount (st : AggState) (i : ℕ) : ℕ := (st.image_points2D.getD i []).length

/-- The body of the aggregation loops of `filter_and_prepare_points` for one
sample `(img_idx, y, x)`: confidence gate, finiteness gate, color lookup,
the three optional mask gates, then hash-based dedup, track building and the
keypoint append. -/
def step (preds : Predictions) (cutoff : ℚ)
    (mask_sky mask_black_bg mask_white_bg : Bool)
    (st : AggState) (s : ℕ × ℕ × ℕ) : AggState :=
  let img_idx := s.1
  let y := s.2.1
  let x := s.2.2
  if confAt preds img_idx y x > cutoff then
    match pointAt preds img_idx y x with
    | (some px, some py, some pz) =>
        let point3D : Vec3Q := (px, py, pz)
        let rgb := colorAt preds img_idx y x
        if mask_sky && is_sky_point point3D rgb then st
        else if mask_black_bg && is_black_bg_point rgb 30 then st
        else if mask_white_bg && is_white_bg_point rgb 230 then st
        else
          let point_hash := hash_point point3D 100
          let st1 : AggState :=
            match dictFind st.point_indices point_hash with
            | none =>
                let point_idx := st.points3D.length
                { st with
                  points3D := st.points3D ++
                    [{ id := point_idx, xyz := point3D, rgb := rgb, error := 1,
                       track := [(img_idx, kpCount st img_idx)] }],
                  point_indices := st.point_indices ++ [(point_hash, point_idx)] }
            | some point_idx =>
                { st with
                  points3D := appendTrack st.points3D point_idx
                    (img_idx, kpCount st img_idx) }
          { st1 with
            image_points2D := appendAt st1.image_points2D img_idx
              (x, y, (dictFind st1.point_indices point_hash).getD 0) }
    | _ => st
  else st

/-- The initial aggregation state: `points3D = []`, `point_indices` empty,
and `image_points2D = [[] for _ in range(len(predictions["depth"]))]`. -/
def initState (preds : Predictions) : AggState :=
  { points3D := []
    point_indices := []
    image_points2D := List.replicate preds.depth.length [] }

/-- The aggregation loops run with an already-scaled absolute cutoff. -/
def runAggregation (preds : Predictions) (cutoff : ℚ)
    (mask_sky mask_black_bg mask_white_bg : Bool) (stride : ℕ) : AggState :=
  (allSamples preds stride).foldl
    (step preds cutoff mask_sky mask_black_bg mask_white_bg) (initState preds)

/-- `filter_and_prepare_points(predictions, conf_threshold, ...)`:
scale the percentage threshold by the global confidence maximum, run the
sampling loops, and return `(points3D, image_points2D)`. -/
def filter_and_prepare_points (preds : Predictions) (conf_threshold : ℚ)
    (mask_sky mask_black_bg mask_white_bg : Bool) (stride : ℕ) :
    List PointEntry × List (List (ℕ × ℕ × ℕ)) :=
  let max_conf := globalMaxConf preds
  let cutoff := conf_threshold / 100 * max_conf
  let final := runAggregation preds cutoff mask_sky mask_black_bg mask_white_bg stride
  (final.points3D, final.image_points2D)

/-- The finiteness gate of the aggregator as a view: `some (a, b, c)` when
all three coordinates of `world_points[img_idx, y, x]` are finite, else
`none`. -/
def sampleFinite (preds : Predictions) (i y x : ℕ) : Option Vec3Q :=
  match pointAt preds i y x with
  | (some a, some b, some c) => some (a, b, c)
  | _ => none

/-- Whether one of the three enabled mask heuristics fires on a sample
(the disjunction of the three `continue` gates of the loop body). -/
def sampleMasked (preds : Predictions) (mask_sky mask_black_bg mask_white_bg : Bool)
    (i y x : ℕ) (p : Vec3Q) : Bool :=
  mask_sky && is_sky_point p (colorAt preds i y x) ||
  mask_black_bg && is_black_bg_point (colorAt preds i y x) 30 ||
  mask_white_bg && is_white_bg_point (colorAt preds i y x) 230

/-- The dedup key produced by a visited sample, or `none` when the sample
is rejected (by the confidence gate, the finiteness gate, or a mask). -/
def sampleKey (preds : Predictions) (cutoff : ℚ)
    (mask_sky mask_black_bg mask_white_bg : Bool) (s : ℕ × ℕ × ℕ) : Option ℤ :=
  if cutoff < confAt preds s.1 s.2.1 s.2.2 then
    match sampleFinite preds s.1 s.2.1 s.2.2 with
    | some p =>
        if sampleMasked preds mask_sky mask_black_bg mask_white_bg s.1 s.2.1 s.2.2 p
        then none
        else some (hash_point p 100)
    | none => none
  else none

/-- Well-shapedness of the model inputs: the confidence array has the same
`(S, H, W)` shape as the world point array (NumPy guarantees this for the
real model outputs; Python would raise on an index past the end). -/
def SameShape (preds : Predictions) : Prop :=
  preds.depth_conf.length = preds.world_points_from_depth.length ∧
  ∀ i, i < preds.world_points_from_depth.length →
    (preds.depth_conf.getD i []).length = gridH preds i ∧
    ∀ y, y < gridH preds i →
      ((preds.depth_conf.getD i []).getD y []).length = gridW preds i

/-- The grid positions `(y, x)` one image of size `h × w` is sampled at,
in iteration order. -/
def visitedPositions (h w stride : ℕ) : List (ℕ × ℕ) :=
  (strideRange h stride).flatMap fun y =>
    (strideRange w stride).map fun x => (y, x)

/-! ### Format writers, modelled at record level

Each writer is modelled by the sequence of data records it emits.  Framing
details that carry no data beyond what the record list already determines
(the `#` comment headers of the text files, the `uint64` record counts of
the binary files, the byte length prefix of a name) are not repeated in the
model; float64 fields are exact rationals as everywhere else (text `repr`
of a float round-trips, binary stores the same float64, so the two coincide
modulo float64 precision). -/

/-- One data line of `cameras.txt`:
`CAMERA_ID MODEL WIDTH HEIGHT fx fy cx cy`. -/
structure CameraTxtLine where
  camera_id : ℕ
  model : String
  width : ℕ
  height : ℕ
  fx : ℚ
  fy : ℚ
  cx : ℚ
  cy : ℚ
deriving Repr, DecidableEq

/-- One record of `cameras.bin`: uint32 id, uint32 model id, uint64 width,
uint64 height, four float64 parameters. -/
structure CameraBinRec where
  camera_id : ℕ
  model_id : ℕ
  width : ℕ
  height : ℕ
  fx : ℚ
  fy : ℚ
  cx : ℚ
  cy : ℚ
deriving Repr, DecidableEq

/-- The decoded camera data model shared by both formats. -/
structure CameraRec where
  camera_id : ℕ
  model_id : ℕ
  width : ℕ
  height : ℕ
  fx : ℚ
  fy : ℚ
  cx : ℚ
  cy : ℚ
deriving Repr, DecidableEq

/-- `write_colmap_cameras_txt`: one PINHOLE line per intrinsic matrix,
1-indexed camera ids, the shared width and height, and parameters
`fx = K[0,0]`, `fy = K[1,1]`, `cx = K[0,2]`, `cy = K[1,2]`. -/
def write_colmap_cameras_txt (intrinsics : List Mat3)
    (image_width image_height : ℕ) : List CameraTxtLine :=
  intrinsics.enum.map fun e =>
    { camera_id := e.1 + 1
      model := "PINHOLE"
      width := image_width
      height := image_height
      fx := e.2.m00
      fy := e.2.m11
      cx := e.2.m02
      cy := e.2.m12 }

/-- `write_colmap_cameras_bin`: same data with the fixed PINHOLE model id 1. -/
def write_colmap_cameras_bin (intrinsics : List Mat3)
    (image_width image_height : ℕ) : List CameraBinRec :=
  intrinsics.enum.map fun e =>
    { camera_id := e.1 + 1
      model_id := 1
      width := image_width
      height := image_height
      fx := e.2.m00
      fy := e.2.m11
      cx := e.2.m02
      cy := e.2.m12 }

/-- COLMAP's model-name table restricted to what the writer emits:
decoding the text `MODEL` column back to the binary model id. -/
def modelIdOfName (s : String) : Option ℕ :=
  if s = "PINHOLE" then some 1 else none

/-- Decode a `cameras.txt` line into the shared data model. -/
def decodeCameraTxt (c : CameraTxtLine) : Option CameraRec :=
  (modelIdOfName c.model).map fun mid =>
    { camera_id := c.camera_id
      model_id := mid
      width := c.width
      height := c.height
      fx := c.fx
      fy := c.fy
      cx := c.cx
      cy := c.cy }

/-- Decode a `cameras.bin` record into the shared data model. -/
def decodeCameraBin (c : CameraBinRec) : CameraRec :=
  { camera_id := c.camera_id
    model_id := c.model_id
    width := c.width
    height := c.height
    fx := c.fx
    fy := c.fy
    cx := c.cx
    cy := c.cy }

/-- `os.path.basename` for POSIX paths: the part after the last slash. -/
def basename (s : String) : String := (s.splitOn "/").getLastD s

/-- One image entry of `images.txt`: the pose line
`IMAGE_ID QW QX QY QZ TX TY TZ CAMERA_ID NAME` plus the keypoint line of
`X Y POINT3D_ID` triples (`X`/`Y` written as the integer grid coordinates,
`POINT3D_ID` 1-based). -/
structure ImageTxtRec where
  image_id : ℕ
  qw : ℚ
  qx : ℚ
  qy : ℚ
  qz : ℚ
  tx : ℚ
  ty : ℚ
  tz : ℚ
  camera_id : ℕ
  name : String
  keypoints : List (ℕ × ℕ × ℕ)
deriving Repr, DecidableEq

/-- One image record of `images.bin`: the same pose fields, the name as
length-prefixed UTF-8 bytes (kept as the string it decodes back to), and
keypoints with `x`, `y` stored as float64 and the 1-based point id as
uint64. -/
structure ImageBinRec where
  image_id : ℕ
  qw : ℚ
  qx : ℚ
  qy : ℚ
  qz : ℚ
  tx : ℚ
  ty : ℚ
  tz : ℚ
  camera_id : ℕ
  name : String
  keypoints : List (ℚ × ℚ × ℕ)
deriving Repr, DecidableEq

/-- The decoded image data model shared by both formats. -/
structure ImageRec where
  image_id : ℕ
  qw : ℚ
  qx : ℚ
  qy : ℚ
  qz : ℚ
  tx : ℚ
  ty : ℚ
  tz : ℚ
  camera_id : ℕ
  name : String
  keypoints : List (ℚ × ℚ × ℕ)
deriving Repr, DecidableEq

/-- `write_colmap_images_txt`: per image index `i`, ids `i + 1` (image and
camera), the pose, the basename of the image path, and the keypoint triples
with 1-based point ids. -/
def write_colmap_images_txt (quaternions : List QuatWXYZ)
    (translations : List Vec3Q) (image_points2D : List (List (ℕ × ℕ × ℕ)))
    (image_names : List String) : List ImageTxtRec :=
  (List.range quaternions.length).map fun i =>
    let q := quaternions.getD i (QuatWXYZ.mk 0 0 0 0)
    let t := translations.getD i (0, 0, 0)
    { image_id := i + 1
      qw := q.w
      qx := q.x
      qy := q.y
      qz := q.z
      tx := t.1
      ty := t.2.1
      tz := t.2.2
      camera_id := i + 1
      name := basename (image_names.getD i "")
      keypoints := (image_points2D.getD i []).map fun e => (e.1, e.2.1, e.2.2 + 1) }

/-- `write_colmap_images_bin`: same data; `x`, `y` go through `float(...)`. -/
def write_colmap_images_bin (quaternions : List QuatWXYZ)
    (translations : List Vec3Q) (image_points2D : List (List (ℕ × ℕ × ℕ)))
    (image_names : List String) : List ImageBinRec :=
  (List.range quaternions.length).map fun i =>
    let q := quaternions.getD i (QuatWXYZ.mk 0 0 0 0)
    let t := translations.getD i (0, 0, 0)
    { image_id := i + 1
      qw := q.w
      qx := q.x
      qy := q.y
      qz := q.z
      tx := t.1
      ty := t.2.1
      tz := t.2.2
      camera_id := i + 1
      name := basename (image_names.getD i "")
      keypoints := (image_points2D.getD i []).map fun e =>
        ((e.1 : ℚ), (e.2.1 : ℚ), e.2.2 + 1) }

/-- Decode an `images.txt` record: the integer keypoint coordinates become
numbers in the shared model. -/
def decodeImageTxt (r : ImageTxtRec) : ImageRec :=
  { image_id := r.image_id
    qw := r.qw
    qx := r.qx
    qy := r.qy
    qz := r.qz
    tx := r.tx
    ty := r.ty
    tz := r.tz
    camera_id := r.camera_id
    name := r.name
    keypoints := r.keypoints.map fun e => ((e.1 : ℚ), (e.2.1 : ℚ), e.2.2) }

/-- Decode an `images.bin` record. -/
def decodeImageBin (r : ImageBinRec) : ImageRec :=
  { image_id := r.image_id
    qw := r.qw
    qx := r.qx
    qy := r.qy
    qz := r.qz
    tx := r.tx
    ty := r.ty
    tz := r.tz
    camera_id := r.camera_id
    name := r.name
    keypoints := r.keypoints }

/-- One data line of `points3D.txt`:
`POINT3D_ID X Y Z R G B ERROR (IMAGE_ID POINT2D_IDX)...` with the color
channels through `int(...)`, image ids 1-based, keypoint indices 0-based. -/
structure PointTxtLine where
  point3d_id : ℕ
  x : ℚ
  y : ℚ
  z : ℚ
  r : ℕ
  g : ℕ
  b : ℕ
  error : ℚ
  track : List (ℕ × ℕ)
deriving Repr, DecidableEq

/-- One record of `points3D.bin`: the color channels go through
`astype(np.uint8)`, which wraps modulo 256. -/
structure PointBinRec where
  point3d_id : ℕ
  x : ℚ
  y : ℚ
  z : ℚ
  r : ℕ
  g : ℕ
  b : ℕ
  error : ℚ
  track : List (ℕ × ℕ)
deriving Repr, DecidableEq

/-- The decoded 3D point data model shared by both formats. -/
structure PointRec where
  point3d_id : ℕ
  x : ℚ
  y : ℚ
  z : ℚ
  r : ℕ
  g : ℕ
  b : ℕ
  error : ℚ
  track : List (ℕ × ℕ)
deriving Repr, DecidableEq

/-- `write_colmap_points3D_txt`: 1-based point ids, position, integer
colors, the placeholder error, and the track with 1-based image ids and
0-based keypoint indices. -/
def write_colmap_points3D_txt (points3D : List PointEntry) : List PointTxtLine :=
  points3D.map fun p =>
    { point3d_id := p.id + 1
      x := p.xyz.1
      y := p.xyz.2.1
      z := p.xyz.2.2
      r := p.rgb.1
      g := p.rgb.2.1
      b := p.rgb.2.2
      error := p.error
      track := p.track.map fun e => (e.1 + 1, e.2) }

/-- `write_colmap_points3D_bin`: same data; colors through `astype(np.uint8)`
(reduction modulo 256). -/
def write_colmap_points3D_bin (points3D : List PointEntry) : List PointBinRec :=
  points3D.map fun p =>
    { point3d_id := p.id + 1
      x := p.xyz.1
      y := p.xyz.2.1
      z := p.xyz.2.2
      r := p.rgb.1 % 256
      g := p.rgb.2.1 % 256
      b := p.rgb.2.2 % 256
      error := p.error
      track := p.track.map fun e => (e.1 + 1, e.2) }

/-- Decode a `points3D.txt` line. -/
def decodePointTxt (l : PointTxtLine) : PointRec :=
  { point3d_id := l.point3d_id
    x := l.x
    y := l.y
    z := l.z
    r := l.r
    g := l.g
    b := l.b
    error := l.error
    track := l.track }

/-- Decode a `points3D.bin` record. -/
def decodePointBin (l : PointBinRec) : PointRec :=
  { point3d_id := l.point3d_id
    x := l.x
    y := l.y
    z := l.z
    r := l.r
    g := l.g
    b := l.b
    error := l.error
    track := l.track }

/-! ### The orchestrator slice feeding the camera writers

`main` computes `height, width = predictions["depth"].shape[1:3]` once and
passes this single pair to whichever camera writer runs. -/

/-- `predictions["depth"].shape[1]`. -/
def mainImageHeight (preds : Predictions) : ℕ := (preds.depth.getD 0 []).length

/-- `predictions["depth"].shape[2]`. -/
def mainImageWidth (preds : Predictions) : ℕ :=
  ((preds.depth.getD 0 []).getD 0 []).length

/-- The camera records `main` emits in text mode. -/
def mainCamerasTxt (preds : Predictions) : List CameraTxtLine :=
  write_colmap_cameras_txt preds.intrinsic (mainImageWidth preds)
    (mainImageHeight preds)

/-- The camera records `main` emits in binary mode. -/
def mainCamerasBin (preds : Predictions) : List CameraBinRec :=
  write_colmap_cameras_bin preds.intrinsic (mainImageWidth preds)
    (mainImageHeight preds)

/-! ### Concrete inputs used by falsification and witness theorems -/

/-- World point whose quantized triple is `(0, 0, -1)`. -/
def pexPointA : Vec3Q := (0, 0, -1/100)

/-- World point whose quantized triple is `(0, 0, -2)`. -/
def pexPointB : Vec3Q := (0, 0, -1/50)

/-- One image with a `1 × 2` grid holding `pexPointA` and `pexPointB`, both
at confidence 1, over a uniform gray `1 × 2` original image. -/
def Pex : Predictions :=
  { depth := [[[1, 1]]]
    depth_conf := [[[1, 1]]]
    world_points_from_depth :=
      [[[(some 0, some 0, some (-1/100)), (some 0, some 0, some (-1/50))]]]
    original_images := [[[(100, 100, 100), (100, 100, 100)]]]
    intrinsic := [Mat3.mk 500 0 320 0 500 240 0 0 1]
    extrinsic := [Extrinsic34.mk (Mat3.mk 1 0 0 0 1 0 0 0 1) (0, 0, 0)] }

/-- One image with a single grid point at up-coordinate 2 whose pixel is
strongly blue, `(10, 10, 200)`. -/
def PskyBlue : Predictions :=
  { depth := [[[1]]]
    depth_conf := [[[1]]]
    world_points_from_depth := [[[(some 0, some 2, some 0)]]]
    original_images := [[[(10, 10, 200)]]]
    intrinsic := [Mat3.mk 500 0 320 0 500 240 0 0 1]
    extrinsic := [Extrinsic34.mk (Mat3.mk 1 0 0 0 1 0 0 0 1) (0, 0, 0)] }

/-- The same image with the pixel color `(10, 10, 11)` instead. -/
def PskyGray : Predictions :=
  { depth := [[[1]]]
    depth_conf := [[[1]]]
    world_points_from_depth := [[[(some 0, some 2, some 0)]]]
    original_images := [[[(10, 10, 11)]]]
    intrinsic := [Mat3.mk 500 0 320 0 500 240 0 0 1]
    extrinsic := [Extrinsic34.mk (Mat3.mk 1 0 0 0 1 0 0 0 1) (0, 0, 0)] }

/-- The reordering the spec demands of the pose converter, stated from the
spec's words: scipy's `[x, y, z, w]` becomes COLMAP's `[w, x, y, z]`. -/
def quat_xyzw_to_wxyz (q : QuatXYZW) : QuatWXYZ := QuatWXYZ.mk q.w q.x q.y q.z

/-- A sample 3D point entry used to instantiate writer theorems. -/
def ptEx : PointEntry :=
  { id := 0
    xyz := (1/2, 2, 3)
    rgb := (10, 20, 30)
    error := 1
    track := [(0, 0), (1, 2)] }

/-- The structural invariant of the aggregation state tying tracks and
keypoint lists together: ids are the dense positions, dict values are valid
point indices, every track entry resolves to a keypoint recording that
point's index, and a keypoint position occurs in the tracks exactly once if
it exists and never otherwise. -/
def TrackInv (st : AggState) : Prop :=
  st.points3D.map PointEntry.id = List.range st.points3D.length ∧
  (∀ e ∈ st.point_indices, e.2 < st.points3D.length) ∧
  (∀ j p, st.points3D[j]? = some p → ∀ e ∈ p.track,
      e.1 < st.image_points2D.length ∧
      e.2 < (st.image_points2D.getD e.1 []).length ∧
      ((st.image_points2D.getD e.1 []).getD e.2 (0, 0, 0)).2.2 = j) ∧
  (∀ i k, k < (st.image_points2D.getD i []).length →
      (st.points3D.map fun p => p.track.count (i, k)).sum = 1) ∧
  (∀ i k, (st.image_points2D.getD i []).length ≤ k →
      (st.points3D.map fun p => p.track.count (i, k)).sum = 0)

/-- The bookkeeping invariant used for point counting: the dict has one
entry per point and its keys are distinct. -/
def KeyInv (st : AggState) : Prop :=
  st.point_indices.length = st.points3D.length ∧
  (st.point_indices.map Prod.fst).Nodup

/-! ### Association-list (Python dict) lemmas -/

theorem dictFind_nil (k : ℤ) : dictFind [] k = none := rfl

theorem dictFind_append (d1 d2 : List (ℤ × ℕ)) (k : ℤ) :
    dictFind (d1 ++ d2) k = (dictFind d1 k).or (dictFind d2 k) := by
  unfold dictFind
  rw [List.find?_append]
  cases List.find? (fun e => e.1 == k) d1 <;> simp

theorem dictFind_append_some {d1 : List (ℤ × ℕ)} {k : ℤ} {v : ℕ}
    (h : dictFind d1 k = some v) (d2 : List (ℤ × ℕ)) :
    dictFind (d1 ++ d2) k = some v := by
  rw [dictFind_append, h]; rfl

theorem dictFind_append_none {d1 : List (ℤ × ℕ)} {k : ℤ}
    (h : dictFind d1 k = none) (d2 : List (ℤ × ℕ)) :
    dictFind (d1 ++ d2) k = dictFind d2 k := by
  rw [dictFind_append, h]; rfl

theorem dictFind_singleton_self (k : ℤ) (v : ℕ) : dictFind [(k, v)] k = some v := by
  simp [dictFind, List.find?]

theorem dictFind_mem {d : List (ℤ × ℕ)} {k : ℤ} {v : ℕ}
    (h : dictFind d k = some v) : (k, v) ∈ d := by
  unfold dictFind at h
  cases hf : List.find? (fun e => e.1 == k) d with
  | none => rw [hf] at h; cases h
  | some e =>
      rw [hf] at h
      have he0 := List.find?_some hf
      have he : (e.1 == k) = true := by simpa using he0
      have hm : e ∈ d := List.mem_of_find?_eq_some hf
      have h1 : e.1 = k := by simpa using he
      have h2 : e.2 = v := by simpa using h
      have : e = (k, v) := by
        cases e
        simp_all
      rwa [this] at hm

theorem not_mem_keys_of_dictFind_none {d : List (ℤ × ℕ)} {k : ℤ}
    (h : dictFind d k = none) : k ∉ d.map Prod.fst := by
  intro hk
  rcases List.mem_map.mp hk with ⟨e, hed, hek⟩
  unfold dictFind at h
  rcases Option.map_eq_none.mp h with hf
  have := List.find?_eq_none.mp hf e hed
  simp [hek] at this

theorem mem_keys_of_dictFind_some {d : List (ℤ × ℕ)} {k : ℤ} {v : ℕ}
    (h : dictFind d k = some v) : k ∈ d.map Prod.fst :=
  List.mem_map.mpr ⟨(k, v), dictFind_mem h, rfl⟩

/-! ### `appendAt` and `appendTrack` lemmas -/

theorem appendAt_length {α : Type} (ls : List (List α)) (i : ℕ) (a : α) :
    (appendAt ls i a).length = ls.length := by
  induction ls generalizing i with
  | nil => rfl
  | cons l ls ih =>
      cases i with
      | zero => rfl
      | succ j => simp [appendAt, ih]

theorem appendAt_of_le {α : Type} {ls : List (List α)} {i : ℕ}
    (h : ls.length ≤ i) (a : α) : appendAt ls i a = ls := by
  induction ls generalizing i with
  | nil => rfl
  | cons l ls ih =>
      cases i with
      | zero => simp at h
      | succ j =>
          simp only [List.length_cons, Nat.succ_le_succ_iff] at h
          simp [appendAt, ih h]

theorem appendAt_getD_self {α : Type} (ls : List (List α)) {i : ℕ}
    (h : i < ls.length) (a : α) :
    (appendAt ls i a).getD i [] = ls.getD i [] ++ [a] := by
  induction ls generalizing i with
  | nil => simp at h
  | cons l ls ih =>
      cases i with
      | zero => rfl
      | succ j =>
          simp only [List.length_cons, Nat.succ_lt_succ_iff] at h
          simpa [appendAt] using ih h

theorem appendAt_getD_ne {α : Type} (ls : List (List α)) {i j : ℕ}
    (h : j ≠ i) (a : α) (d : List α) :
    (appendAt ls i a).getD j d = ls.getD j d := by
  induction ls generalizing i j with
  | nil => rfl
  | cons l ls ih =>
      cases i with
      | zero =>
          cases j with
          | zero => exact absurd rfl h
          | succ j2 => rfl
      | succ i2 =>
          cases j with
          | zero => rfl
          | succ j2 =>
              simpa [appendAt] using ih (fun hji => h (by rw [hji]))

theorem appendTrack_length (l : List PointEntry) (i : ℕ) (e : ℕ × ℕ) :
    (appendTrack l i e).length = l.length := by
  induction l generalizing i with
  | nil => rfl
  | cons p ps ih =>
      cases i with
      | zero => rfl
      | succ j => simp [appendTrack, ih]

theorem appendTrack_of_le {l : List PointEntry} {i : ℕ}
    (h : l.length ≤ i) (e : ℕ × ℕ) : appendTrack l i e = l := by
  induction l generalizing i with
  | nil => rfl
  | cons p ps ih =>
      cases i with
      | zero => simp at h
      | succ j =>
          simp only [List.length_cons, Nat.succ_le_succ_iff] at h
          simp [appendTrack, ih h]

theorem appendTrack_map_id (l : List PointEntry) (i : ℕ) (e : ℕ × ℕ) :
    (appendTrack l i e).map PointEntry.id = l.map PointEntry.id := by
  induction l generalizing i with
  | nil => rfl
  | cons p ps ih =>
      cases i with
      | zero => simp [appendTrack]
      | succ j => simp [appendTrack, ih]

theorem appendTrack_getElem?_self {l : List PointEntry} {i : ℕ} {p : PointEntry}
    (h : l[i]? = some p) (e : ℕ × ℕ) :
    (appendTrack l i e)[i]? = some { p with track := p.track ++ [e] } := by
  induction l generalizing i with
  | nil => simp at h
  | cons q qs ih =>
      cases i with
      | zero =>
          simp only [List.getElem?_cons_zero, Option.some.injEq] at h
          subst h
          simp [appendTrack]
      | succ j =>
          simp only [List.getElem?_cons_succ] at h
          simpa [appendTrack] using ih h

theorem appendTrack_getElem?_ne {l : List PointEntry} {i j : ℕ}
    (h : j ≠ i) (e : ℕ × ℕ) : (appendTrack l i e)[j]? = l[j]? := by
  induction l generalizing i j with
  | nil => rfl
  | cons q qs ih =>
      cases i with
      | zero =>
          cases j with
          | zero => exact absurd rfl h
          | succ j2 => simp [appendTrack]
      | succ i2 =>
          cases j with
          | zero => simp [appendTrack]
          | succ j2 =>
              simpa [appendTrack] using ih (fun hji => h (by rw [hji]))

theorem appendTrack_count_sum (l : List PointEntry) {i : ℕ} (hi : i < l.length)
    (e pos : ℕ × ℕ) :
    ((appendTrack l i e).map fun p => p.track.count pos).sum
      = ((l.map fun p => p.track.count pos).sum + if e = pos then 1 else 0) := by
  induction l generalizing i with
  | nil => simp at hi
  | cons q qs ih =>
      cases i with
      | zero =>
          simp only [appendTrack, List.map_cons, List.sum_cons, List.count_append]
          have hc : List.count pos [e] = if e = pos then 1 else 0 := by
            by_cases he : e = pos <;> simp [he, List.count_cons]
          omega
      | succ j =>
          simp only [List.length_cons, Nat.succ_lt_succ_iff] at hi
          simp only [appendTrack, List.map_cons, List.sum_cons, ih hi]
          omega

/-! ### Characterization of one aggregation step -/

theorem step_of_conf_le {preds : Predictions} {cutoff : ℚ} {ms mb mw : Bool}
    {st : AggState} {i y x : ℕ} (h : confAt preds i y x ≤ cutoff) :
    step preds cutoff ms mb mw st (i, y, x) = st := by
  simp only [step, gt_iff_lt]
  rw [if_neg (not_lt.mpr h)]

theorem step_of_nonfinite {preds : Predictions} {cutoff : ℚ} {ms mb mw : Bool}
    {st : AggState} {i y x : ℕ}
    (hfin : sampleFinite preds i y x = none) :
    step preds cutoff ms mb mw st (i, y, x) = st := by
  simp only [step, gt_iff_lt]
  split
  · unfold sampleFinite at hfin
    rcases hp : pointAt preds i y x with ⟨a, b, c⟩
    rw [hp] at hfin
    cases a <;> cases b <;> cases c <;> simp_all
  · rfl

theorem sampleFinite_eq_some_iff (preds : Predictions) (i y x : ℕ) (p : Vec3Q) :
    sampleFinite preds i y x = some p ↔
      pointAt preds i y x = (some p.1, some p.2.1, some p.2.2) := by
  unfold sampleFinite
  generalize pointAt preds i y x = v
  rcases v with ⟨a, b, c⟩
  rcases p with ⟨pa, pb, pc⟩
  cases a <;> cases b <;> cases c <;> simp [Prod.ext_iff]

theorem step_of_masked {preds : Predictions} {cutoff : ℚ} {ms mb mw : Bool}
    {st : AggState} {i y x : ℕ} {p : Vec3Q}
    (hfin : sampleFinite preds i y x = some p)
    (hmask : sampleMasked preds ms mb mw i y x p = true) :
    step preds cutoff ms mb mw st (i, y, x) = st := by
  have hpt := (sampleFinite_eq_some_iff preds i y x p).mp hfin
  simp only [sampleMasked, Bool.or_eq_true] at hmask
  simp only [step, gt_iff_lt]
  split
  · rw [hpt]
    rcases p with ⟨pa, pb, pc⟩
    rcases hmask with (hsky | hblack) | hwhite
    · simp [hsky]
    · cases hs : ms && is_sky_point (pa, pb, pc) (colorAt preds i y x) <;>
        simp [hs, hblack]
    · cases hs : ms && is_sky_point (pa, pb, pc) (colorAt preds i y x) <;>
      cases hb : mb && is_black_bg_point (colorAt preds i y x) 30 <;>
        simp [hs, hb, hwhite]
  · rfl

theorem step_accepted_new {preds : Predictions} {cutoff : ℚ} {ms mb mw : Bool}
    {st : AggState} {i y x : ℕ} {p : Vec3Q}
    (hconf : cutoff < confAt preds i y x)
    (hfin : sampleFinite preds i y x = some p)
    (hmask : sampleMasked preds ms mb mw i y x p = false)
    (hdict : dictFind st.point_indices (hash_point p 100) = none) :
    step preds cutoff ms mb mw st (i, y, x) =
      { points3D := st.points3D ++
          [{ id := st.points3D.length, xyz := p, rgb := colorAt preds i y x,
             error := 1, track := [(i, kpCount st i)] }]
        point_indices := st.point_indices ++
          [(hash_point p 100, st.points3D.length)]
        image_points2D := appendAt st.image_points2D i
          (x, y, st.points3D.length) } := by
  have hpt := (sampleFinite_eq_some_iff preds i y x p).mp hfin
  simp only [sampleMasked, Bool.or_eq_false_iff] at hmask
  obtain ⟨⟨hs, hb⟩, hw⟩ := hmask
  simp only [step, gt_iff_lt]
  rw [if_pos hconf, hpt]
  rcases p with ⟨pa, pb, pc⟩
  simp only [hs, hb, hw] at *
  simp only [Bool.false_eq_true, if_false, hdict]
  rw [dictFind_append_none hdict, dictFind_singleton_self]
  simp

theorem step_accepted_old {preds : Predictions} {cutoff : ℚ} {ms mb mw : Bool}
    {st : AggState} {i y x : ℕ} {p : Vec3Q} {idx : ℕ}
    (hconf : cutoff < confAt preds i y x)
    (hfin : sampleFinite preds i y x = some p)
    (hmask : sampleMasked preds ms mb mw i y x p = false)
    (hdict : dictFind st.point_indices (hash_point p 100) = some idx) :
    step preds cutoff ms mb mw st (i, y, x) =
      { points3D := appendTrack st.points3D idx (i, kpCount st i)
        point_indices := st.point_indices
        image_points2D := appendAt st.image_points2D i (x, y, idx) } := by
  have hpt := (sampleFinite_eq_some_iff preds i y x p).mp hfin
  simp only [sampleMasked, Bool.or_eq_false_iff] at hmask
  obtain ⟨⟨hs, hb⟩, hw⟩ := hmask
  simp only [step, gt_iff_lt]
  rw [if_pos hconf, hpt]
  rcases p with ⟨pa, pb, pc⟩
  simp only [hs, hb, hw] at *
  simp only [Bool.false_eq_true, if_false, hdict]
  simp

/-- Exhaustive case split for one aggregation step: either the sample is
rejected (its key is `none`) and the state is unchanged, or it is accepted
and the step takes the new-point or the existing-point form. -/
theorem step_cases (preds : Predictions) (cutoff : ℚ) (ms mb mw : Bool)
    (st : AggState) (s : ℕ × ℕ × ℕ) :
    (sampleKey preds cutoff ms mb mw s = none ∧
      step preds cutoff ms mb mw st s = st) ∨
    (∃ p, sampleFinite preds s.1 s.2.1 s.2.2 = some p ∧
      cutoff < confAt preds s.1 s.2.1 s.2.2 ∧
      sampleMasked preds ms mb mw s.1 s.2.1 s.2.2 p = false ∧
      sampleKey preds cutoff ms mb mw s = some (hash_point p 100) ∧
      ((dictFind st.point_indices (hash_point p 100) = none ∧
        step preds cutoff ms mb mw st s =
          { points3D := st.points3D ++
              [{ id := st.points3D.length, xyz := p,
                 rgb := colorAt preds s.1 s.2.1 s.2.2,
                 error := 1, track := [(s.1, kpCount st s.1)] }]
            point_indices := st.point_indices ++
              [(hash_point p 100, st.points3D.length)]
            image_points2D := appendAt st.image_points2D s.1
              (s.2.2, s.2.1, st.points3D.length) }) ∨
       (∃ idx, dictFind st.point_indices (hash_point p 100) = some idx ∧
        step preds cutoff ms mb mw st s =
          { points3D := appendTrack st.points3D idx (s.1, kpCount st s.1)
            point_indices := st.point_indices
            image_points2D := appendAt st.image_points2D s.1
              (s.2.2, s.2.1, idx) }))) := by
  rcases s with ⟨i, y, x⟩
  by_cases hconf : cutoff < confAt preds i y x
  · cases hfin : sampleFinite preds i y x with
    | none =>
        left
        refine ⟨?_, step_of_nonfinite hfin⟩
        simp [sampleKey, hconf, hfin]
    | some p =>
        cases hmask : sampleMasked preds ms mb mw i y x p with
        | true =>
            left
            refine ⟨?_, step_of_masked hfin hmask⟩
            simp [sampleKey, hconf, hfin, hmask]
        | false =>
            right
            refine ⟨p, rfl, hconf, hmask, ?_, ?_⟩
            · simp [sampleKey, hconf, hfin, hmask]
            · cases hdict : dictFind st.point_indices (hash_point p 100) with
              | none =>
                  left
                  exact ⟨rfl, step_accepted_new hconf hfin hmask hdict⟩
              | some idx =>
                  right
                  exact ⟨idx, rfl, step_accepted_old hconf hfin hmask hdict⟩
  · left
    refine ⟨?_, step_of_conf_le (not_lt.mp hconf)⟩
    simp [sampleKey, hconf]

/-- Fold-preservation helper for state predicates. -/
theorem foldl_preserve {σ α : Type} (P : σ → Prop) (f : σ → α → σ)
    (l : List α) (st : σ) (h0 : P st)
    (hstep : ∀ st2 a, a ∈ l → P st2 → P (f st2 a)) :
    P (l.foldl f st) := by
  induction l generalizing st with
  | nil => exact h0
  | cons a l2 ih =>
      exact ih (f st a) (hstep st a (List.mem_cons_self a l2) h0)
        fun st2 b hb => hstep st2 b (List.mem_cons_of_mem a hb)

/-! ### Concrete evaluation helpers -/

theorem globalMaxConf_Pex : globalMaxConf Pex = 1 := by
  simp [globalMaxConf, Pex]

theorem colorAt_PskyBlue : colorAt PskyBlue 0 0 0 = (10, 10, 200) := by
  simp [colorAt, origImage, origYofGrid, origXofGrid, origH, origW, PskyBlue]

theorem colorAt_PskyGray : colorAt PskyGray 0 0 0 = (10, 10, 11) := by
  simp [colorAt, origImage, origYofGrid, origXofGrid, origH, origW, PskyGray]

/-- Claim C8: for every camera-to-world extrinsic, the pose converter
returns the rotation as a quaternion in `(w, x, y, z)` order, explicitly
reordered from the library's `(x, y, z, w)` order, and returns the
translation component unchanged. -/
theorem spec_C8_pose_converter (as_quat : Mat3 → QuatXYZW)
    (extrinsics : List Extrinsic34) :
    (extrinsic_to_colmap_format as_quat extrinsics).1 =
      extrinsics.map (fun e => quat_xyzw_to_wxyz (as_quat e.r)) ∧
    (extrinsic_to_colmap_format as_quat extrinsics).2 =
      extrinsics.map (fun e => e.t) :=
  ⟨rfl, rfl⟩

/-- Claim C9: the sky predicate holds iff the up-axis (second) coordinate
exceeds 1.0 and the blue channel exceeds 1.2 times the red and 1.2 times
the green channel; with the sky filter enabled, the point `(0, 2, 0)` with
color `(10, 10, 200)` is rejected by the aggregator while the same point
with color `(10, 10, 11)` is kept. -/
theorem spec_C9_sky_classifier :
    (∀ (p : Vec3Q) (rgb : RGB),
        is_sky_point p rgb = true ↔
          (1 < p.2.1 ∧ (1.2 : ℚ) * rgb.1 < rgb.2.2 ∧
            (1.2 : ℚ) * rgb.2.1 < rgb.2.2)) ∧
    is_sky_point (0, 2, 0) (10, 10, 200) = true ∧
    is_sky_point (0, 2, 0) (10, 10, 11) = false ∧
    (filter_and_prepare_points PskyBlue 0 true false false 1).1.length = 0 ∧
    (filter_and_prepare_points PskyGray 0 true false false 1).1.length = 1 := by
  have hiff : ∀ (p : Vec3Q) (rgb : RGB),
      is_sky_point p rgb = true ↔
        (1 < p.2.1 ∧ (1.2 : ℚ) * rgb.1 < rgb.2.2 ∧
          (1.2 : ℚ) * rgb.2.1 < rgb.2.2) := by
    intro p rgb
    simp [is_sky_point, Bool.and_eq_true, decide_eq_true_eq, and_assoc]
  have htrue : is_sky_point (0, 2, 0) (10, 10, 200) = true := by
    rw [hiff]
    norm_num
  have hfalse : is_sky_point (0, 2, 0) (10, 10, 11) = false := by
    rw [Bool.eq_false_iff]
    intro hs
    obtain ⟨h1, h2, h3⟩ := (hiff _ _).mp hs
    norm_num at h2
  have hmaskB : sampleMasked PskyBlue true false false 0 0 0 (0, 2, 0) = true := by
    simp [sampleMasked, colorAt_PskyBlue, htrue]
  have hmaskG : sampleMasked PskyGray true false false 0 0 0 (0, 2, 0) = false := by
    simp [sampleMasked, colorAt_PskyGray, hfalse]
  have hrunB : runAggregation PskyBlue 0 true false false 1 = initState PskyBlue := by
    have hsam : allSamples PskyBlue 1 = [(0, 0, 0)] := rfl
    rw [runAggregation, hsam, List.foldl_cons, List.foldl_nil]
    exact step_of_masked rfl hmaskB
  have hrunG : runAggregation PskyGray 0 true false false 1 =
      { points3D := [{ id := 0, xyz := (0, 2, 0), rgb := (10, 10, 11),
                       error := 1, track := [(0, 0)] }]
        point_indices := [(hash_point ((0 : ℚ), (2 : ℚ), (0 : ℚ)) 100, 0)]
        image_points2D := [[(0, 0, 0)]] } := by
    have hsam : allSamples PskyGray 1 = [(0, 0, 0)] := rfl
    have hinit : initState PskyGray =
        { points3D := [], point_indices := [], image_points2D := [[]] } := rfl
    have hconf : (0 : ℚ) < confAt PskyGray 0 0 0 := by
      norm_num [confAt, PskyGray]
    rw [runAggregation, hsam, List.foldl_cons, List.foldl_nil, hinit]
    rw [step_accepted_new hconf rfl hmaskG (by rfl)]
    rw [colorAt_PskyGray]
    simp [kpCount, appendAt]
  have hcutB : (0 : ℚ) / 100 * globalMaxConf PskyBlue = 0 := by simp
  have hcutG : (0 : ℚ) / 100 * globalMaxConf PskyGray = 0 := by simp
  refine ⟨hiff, htrue, hfalse, ?_, ?_⟩
  · simp only [filter_and_prepare_points]
    rw [hcutB, hrunB]
    simp [initState]
  · simp only [filter_and_prepare_points]
    rw [hcutG, hrunG]
    simp

/-- Claim C10: every camera record written (text or binary) uses the one
shared width/height pair `main` takes from the depth grid dimensions
(`predictions["depth"].shape[1:3]`), so all camera entries of a run carry
identical WIDTH and HEIGHT even though one camera is emitted per image. -/
theorem spec_C10_shared_camera_dims (preds : Predictions) :
    (∀ c ∈ mainCamerasTxt preds,
        c.width = mainImageWidth preds ∧ c.height = mainImageHeight preds) ∧
    (∀ c ∈ mainCamerasBin preds,
        c.width = mainImageWidth preds ∧ c.height = mainImageHeight preds) := by
  constructor
  · intro c hc
    simp only [mainCamerasTxt, write_colmap_cameras_txt, List.mem_map] at hc
    rcases hc with ⟨e, he, rfl⟩
    exact ⟨rfl, rfl⟩
  · intro c hc
    simp only [mainCamerasBin, write_colmap_cameras_bin, List.mem_map] at hc
    rcases hc with ⟨e, he, rfl⟩
    exact ⟨rfl, rfl⟩

/-- Witness for `spec_C10_shared_camera_dims` on the concrete input `Pex`:
its single text camera record carries the depth grid dimensions 2 x 1. -/
theorem spec_C10_witness :
    (CameraTxtLine.mk 1 "PINHOLE" 2 1 500 500 320 240).width = mainImageWidth Pex ∧
    (CameraTxtLine.mk 1 "PINHOLE" 2 1 500 500 320 240).height = mainImageHeight Pex :=
  (spec_C10_shared_camera_dims Pex).1 _ (by
    have hrec : mainCamerasTxt Pex =
        [CameraTxtLine.mk 1 "PINHOLE" 2 1 500 500 320 240] := rfl
    rw [hrec]
    exact List.mem_singleton.mpr rfl)

/-- Claim C2: for every aggregator output, the text and the binary writers
emit content-equivalent data: decoded back into the shared data model, the
camera, image and 3D point records agree field for field (1-based ids and
track entries included).  The color-bound hypothesis says the stored colors
are genuine uint8 values, as they are in the pipeline (they are sampled
from uint8 images); floats are exact rationals throughout. -/
theorem spec_C2_cross_format_equivalence (intrinsics : List Mat3)
    (iw ihh : ℕ) (quats : List QuatWXYZ) (trans : List Vec3Q)
    (imgpts : List (List (ℕ × ℕ × ℕ))) (names : List String)
    (pts : List PointEntry)
    (hrgb : ∀ p ∈ pts, p.rgb.1 < 256 ∧ p.rgb.2.1 < 256 ∧ p.rgb.2.2 < 256) :
    (write_colmap_cameras_txt intrinsics iw ihh).map decodeCameraTxt =
      (write_colmap_cameras_bin intrinsics iw ihh).map
        (fun c => some (decodeCameraBin c)) ∧
    (write_colmap_images_txt quats trans imgpts names).map decodeImageTxt =
      (write_colmap_images_bin quats trans imgpts names).map decodeImageBin ∧
    (write_colmap_points3D_txt pts).map decodePointTxt =
      (write_colmap_points3D_bin pts).map decodePointBin := by
  refine ⟨?_, ?_, ?_⟩
  · simp [write_colmap_cameras_txt, write_colmap_cameras_bin, decodeCameraTxt,
      decodeCameraBin, modelIdOfName, List.map_map, Function.comp]
  · simp [write_colmap_images_txt, write_colmap_images_bin, decodeImageTxt,
      decodeImageBin, List.map_map, Function.comp]
  · rw [write_colmap_points3D_txt, write_colmap_points3D_bin, List.map_map,
      List.map_map]
    apply List.map_congr_left
    intro p hp
    obtain ⟨h1, h2, h3⟩ := hrgb p hp
    simp [decodePointTxt, decodePointBin, Function.comp, Nat.mod_eq_of_lt h1,
      Nat.mod_eq_of_lt h2, Nat.mod_eq_of_lt h3]

/-- Witness for `spec_C2_cross_format_equivalence` at a concrete point list:
both serializations of `[ptEx]` decode to the same record. -/
theorem spec_C2_witness :
    (write_colmap_points3D_txt [ptEx]).map decodePointTxt =
      (write_colmap_points3D_bin [ptEx]).map decodePointBin :=
  (spec_C2_cross_format_equivalence [] 0 0 [] [] [] [] [ptEx] (by
    intro p hp
    rw [List.mem_singleton] at hp
    subst hp
    refine ⟨by decide, by decide, by decide⟩)).2.2

/-! ### Stride sampling lemmas -/

theorem mem_strideRange_iff {s : ℕ} (hs : 1 ≤ s) (n y : ℕ) :
    y ∈ strideRange n s ↔ y < n ∧ s ∣ y := by
  unfold strideRange
  simp only [List.mem_map, List.mem_range]
  constructor
  · rintro ⟨k, hk, rfl⟩
    have h2 : (k + 1) * s ≤ n + s - 1 :=
      (Nat.le_div_iff_mul_le (by omega)).mp hk
    rw [Nat.succ_mul] at h2
    have hlt : k * s < n := by
      generalize hq : k * s = m at h2 ⊢
      omega
    exact ⟨hlt, dvd_mul_left s k⟩
  · rintro ⟨hyn, k, rfl⟩
    have hk1 : (k + 1) * s ≤ n + s - 1 := by
      rw [Nat.succ_mul]
      have hc : k * s = s * k := Nat.mul_comm k s
      generalize hq : k * s = m at hc ⊢
      omega
    exact ⟨k, (Nat.le_div_iff_mul_le (by omega)).mpr hk1, Nat.mul_comm k s⟩

theorem strideRange_length (n s : ℕ) :
    (strideRange n s).length = (n + s - 1) / s := by
  simp [strideRange]

theorem length_flatMap_const {α β : Type} (l : List α) (f : α → List β)
    (c : ℕ) (hc : ∀ a ∈ l, (f a).length = c) :
    (l.flatMap f).length = l.length * c := by
  induction l with
  | nil => simp
  | cons a l2 ih =>
      rw [List.flatMap_cons, List.length_append, hc a (List.mem_cons_self a l2),
        ih fun b hb => hc b (List.mem_cons_of_mem a hb)]
      simp [List.length_cons]
      ring

theorem visitedPositions_length (h w s : ℕ) :
    (visitedPositions h w s).length =
      ((h + s - 1) / s) * ((w + s - 1) / s) := by
  unfold visitedPositions
  rw [length_flatMap_const _ _ ((w + s - 1) / s)
    fun a ha => by simp [strideRange_length]]
  rw [strideRange_length]

theorem ceilDiv_two_mul_le (n s : ℕ) (hs : 1 ≤ s) :
    (n + 2 * s - 1) / (2 * s) ≤ (n + s - 1) / s := by
  rcases Nat.eq_zero_or_pos ((n + 2 * s - 1) / (2 * s)) with h0 | h1
  · rw [h0]
    exact Nat.zero_le _
  · apply (Nat.le_div_iff_mul_le (show 0 < s by omega)).mpr
    have h2 : (n + 2 * s - 1) / (2 * s) * (2 * s) ≤ n + 2 * s - 1 :=
      Nat.div_mul_le_self _ _
    have h4 : (n + 2 * s - 1) / (2 * s) * (2 * s) =
        2 * ((n + 2 * s - 1) / (2 * s) * s) := by ring
    rw [h4] at h2
    have h3 : s ≤ (n + 2 * s - 1) / (2 * s) * s :=
      Nat.le_mul_of_pos_left s h1
    generalize hq : (n + 2 * s - 1) / (2 * s) * s = m at h2 h3 ⊢
    omega

theorem visitedPositions_double_le (h w s : ℕ) (hs : 1 ≤ s) :
    (visitedPositions h w (2 * s)).length ≤ (visitedPositions h w s).length := by
  rw [visitedPositions_length, visitedPositions_length]
  exact Nat.mul_le_mul (ceilDiv_two_mul_le h s hs) (ceilDiv_two_mul_le w s hs)

theorem allSamples_eq_visited (preds : Predictions) (stride : ℕ) :
    allSamples preds stride =
      (List.range preds.world_points_from_depth.length).flatMap fun i =>
        (visitedPositions (gridH preds i) (gridW preds i) stride).map fun yx =>
          (i, yx.1, yx.2) := by
  unfold allSamples visitedPositions
  congr 1
  funext i
  rw [List.map_flatMap]
  congr 1
  funext y
  rw [List.map_map]
  rfl

/-- Claim C7: for stride `S ≥ 1`, the aggregator visits exactly the grid
positions whose row and column are multiples of `S` (the per-image sampling
of `allSamples` is `visitedPositions`), bounded by `⌈H/S⌉ * ⌈W/S⌉` samples
per image; doubling the stride never increases the number of visited
samples; and a 4 x 4 grid at stride 2 yields exactly the positions
`(0,0), (0,2), (2,0), (2,2)`. -/
theorem spec_C7_stride_sampling (h w s : ℕ) (hs : 1 ≤ s) :
    (∀ y x : ℕ, (y, x) ∈ visitedPositions h w s ↔
        (y < h ∧ x < w ∧ s ∣ y ∧ s ∣ x)) ∧
    (visitedPositions h w s).length ≤ ((h + s - 1) / s) * ((w + s - 1) / s) ∧
    (visitedPositions h w (2 * s)).length ≤ (visitedPositions h w s).length ∧
    (∀ (preds : Predictions) (stride : ℕ), allSamples preds stride =
        (List.range preds.world_points_from_depth.length).flatMap fun i =>
          (visitedPositions (gridH preds i) (gridW preds i) stride).map fun yx =>
            (i, yx.1, yx.2)) ∧
    visitedPositions 4 4 2 = [(0, 0), (0, 2), (2, 0), (2, 2)] := by
  refine ⟨?_, le_of_eq (visitedPositions_length h w s),
    visitedPositions_double_le h w s hs, allSamples_eq_visited, by decide⟩
  intro y x
  unfold visitedPositions
  simp only [List.mem_flatMap, List.mem_map]
  constructor
  · rintro ⟨y2, hy2, x2, hx2, heq⟩
    obtain ⟨hy, hx⟩ : y2 = y ∧ x2 = x := by
      simpa [Prod.ext_iff] using heq
    rw [hy] at hy2
    rw [hx] at hx2
    obtain ⟨hyn, hyd⟩ := (mem_strideRange_iff hs h y).mp hy2
    obtain ⟨hxn, hxd⟩ := (mem_strideRange_iff hs w x).mp hx2
    exact ⟨hyn, hxn, hyd, hxd⟩
  · rintro ⟨hy, hx, hyd, hxd⟩
    exact ⟨y, (mem_strideRange_iff hs h y).mpr ⟨hy, hyd⟩, x,
      (mem_strideRange_iff hs w x).mpr ⟨hx, hxd⟩, rfl⟩

/-- Witness for `spec_C7_stride_sampling` at `H = W = 4`, `S = 2`. -/
theorem spec_C7_witness :
    visitedPositions 4 4 2 = [(0, 0), (0, 2), (2, 0), (2, 2)] :=
  (spec_C7_stride_sampling 4 4 2 (by decide)).2.2.2.2

/-! ### Dense point ids -/

theorem idsDense_step (preds : Predictions) (cutoff : ℚ) (ms mb mw : Bool)
    (st : AggState) (s : ℕ × ℕ × ℕ)
    (h : st.points3D.map PointEntry.id = List.range st.points3D.length) :
    (step preds cutoff ms mb mw st s).points3D.map PointEntry.id =
      List.range (step preds cutoff ms mb mw st s).points3D.length := by
  rcases step_cases preds cutoff ms mb mw st s with ⟨_, heq⟩ | ⟨p, _, _, _, _, hcase⟩
  · rw [heq]
    exact h
  · rcases hcase with ⟨_, heq⟩ | ⟨idx, _, heq⟩
    · rw [heq]
      simp only [List.map_append, List.length_append, List.map_cons,
        List.map_nil, List.length_cons, List.length_nil]
      rw [h]
      simp [List.range_succ]
    · rw [heq]
      simp only []
      rw [appendTrack_map_id, appendTrack_length]
      exact h

/-- Claim C4: after any aggregation run with `P` points, the point ids are
exactly the dense integers `0..P-1` and each point's id equals its position
in the `points3D` list.  (Keypoint indices within an image are positions in
that image's keypoint list, dense `0..K_i-1` in insertion order by the list
representation itself.) -/
theorem spec_C4_dense_ids (preds : Predictions) (t : ℚ) (ms mb mw : Bool)
    (stride : ℕ) :
    (filter_and_prepare_points preds t ms mb mw stride).1.map PointEntry.id =
      List.range (filter_and_prepare_points preds t ms mb mw stride).1.length := by
  have hrun : ∀ cutoff : ℚ,
      (runAggregation preds cutoff ms mb mw stride).points3D.map PointEntry.id =
        List.range (runAggregation preds cutoff ms mb mw stride).points3D.length := by
    intro cutoff
    unfold runAggregation
    apply foldl_preserve
      (fun st2 : AggState =>
        st2.points3D.map PointEntry.id = List.range st2.points3D.length)
    · simp [initState]
    · intro st2 a ha h2
      exact idsDense_step preds cutoff ms mb mw st2 a h2
  simp only [filter_and_prepare_points]
  exact hrun _

/-- Claim C5: the aggregator computes the single absolute cutoff
`threshold_pct/100 * max(confidence over all images and pixels)` once, and
the confidence gate rejects a visited sample exactly when its confidence is
`≤` that cutoff, before any finiteness or heuristic test: at or below the
cutoff the step leaves the state unchanged no matter what the point or the
color is, while above the cutoff a finite unmasked sample always records a
keypoint. -/
theorem spec_C5_confidence_cutoff (preds : Predictions) (t : ℚ)
    (ms mb mw : Bool) (stride : ℕ) :
    (filter_and_prepare_points preds t ms mb mw stride =
      ((runAggregation preds (t / 100 * globalMaxConf preds) ms mb mw stride).points3D,
       (runAggregation preds (t / 100 * globalMaxConf preds) ms mb mw stride).image_points2D)) ∧
    (∀ (st : AggState) (i y x : ℕ),
        confAt preds i y x ≤ t / 100 * globalMaxConf preds →
        step preds (t / 100 * globalMaxConf preds) ms mb mw st (i, y, x) = st) ∧
    (∀ (st : AggState) (i y x : ℕ) (p : Vec3Q),
        t / 100 * globalMaxConf preds < confAt preds i y x →
        sampleFinite preds i y x = some p →
        sampleMasked preds ms mb mw i y x p = false →
        i < st.image_points2D.length →
        kpCount (step preds (t / 100 * globalMaxConf preds) ms mb mw st (i, y, x)) i =
          kpCount st i + 1) := by
  refine ⟨rfl, ?_, ?_⟩
  · intro st i y x hle
    exact step_of_conf_le hle
  · intro st i y x p hconf hfin hmask hi
    cases hdict : dictFind st.point_indices (hash_point p 100) with
    | none =>
        rw [step_accepted_new hconf hfin hmask hdict]
        simp only [kpCount]
        rw [appendAt_getD_self _ hi]
        simp
    | some idx =>
        rw [step_accepted_old hconf hfin hmask hdict]
        simp only [kpCount]
        rw [appendAt_getD_self _ hi]
        simp

/-- Witness for `spec_C5_confidence_cutoff`: on `Pex` with threshold 200
the cutoff is 2 and the sample at `(0, 0, 0)` (confidence 1) is rejected,
leaving the state unchanged. -/
theorem spec_C5_witness :
    step Pex ((200 : ℚ) / 100 * globalMaxConf Pex) false false false
      (initState Pex) (0, 0, 0) = initState Pex :=
  (spec_C5_confidence_cutoff Pex 200 false false false 1).2.1
    (initState Pex) 0 0 0 (by
      rw [globalMaxConf_Pex]
      norm_num [confAt, Pex])

/-! ### Hash evaluation and the dedup collision -/

theorem roundHalfEven_intCast (n : ℤ) : roundHalfEven ((n : ℚ)) = n := by
  unfold roundHalfEven
  rw [Int.floor_intCast]
  norm_num

theorem quantize_pexA : quantize_point ((0 : ℚ), (0 : ℚ), (-1/100 : ℚ)) 100 = (0, 0, -1) := by
  unfold quantize_point
  have h1 : ((0 : ℚ) * 100) = (((0 : ℤ) : ℚ)) := by norm_num
  have h3 : ((-1/100 : ℚ) * 100) = (((-1 : ℤ) : ℚ)) := by norm_num
  simp only []
  rw [h1, h3, roundHalfEven_intCast, roundHalfEven_intCast]

theorem quantize_pexB : quantize_point ((0 : ℚ), (0 : ℚ), (-1/50 : ℚ)) 100 = (0, 0, -2) := by
  unfold quantize_point
  have h1 : ((0 : ℚ) * 100) = (((0 : ℤ) : ℚ)) := by norm_num
  have h3 : ((-1/50 : ℚ) * 100) = (((-2 : ℤ) : ℚ)) := by norm_num
  simp only []
  rw [h1, h3, roundHalfEven_intCast, roundHalfEven_intCast]

theorem hash_pexA :
    hash_point ((0 : ℚ), (0 : ℚ), (-1/100 : ℚ)) 100 = 8441900073442563992 := by
  simp only [hash_point]
  rw [quantize_pexA]
  decide

theorem hash_pexB :
    hash_point ((0 : ℚ), (0 : ℚ), (-1/50 : ℚ)) 100 = 8441900073442563992 := by
  simp only [hash_point]
  rw [quantize_pexB]
  decide

set_option maxRecDepth 4000 in
theorem Pex_run :
    runAggregation Pex 0 false false false 1 =
      { points3D := [{ id := 0, xyz := (0, 0, -1/100),
                       rgb := colorAt Pex 0 0 0, error := 1,
                       track := [(0, 0), (0, 1)] }]
        point_indices := [(8441900073442563992, 0)]
        image_points2D := [[(0, 0, 0), (1, 0, 0)]] } := by
  have hsam : allSamples Pex 1 = [(0, 0, 0), (0, 0, 1)] := rfl
  have hinit : initState Pex =
      { points3D := [], point_indices := [], image_points2D := [[]] } := rfl
  have hconf0 : (0 : ℚ) < confAt Pex 0 0 0 := by norm_num [confAt, Pex]
  have hconf1 : (0 : ℚ) < confAt Pex 0 0 1 := by norm_num [confAt, Pex]
  have hmask0 : sampleMasked Pex false false false 0 0 0 ((0 : ℚ), (0 : ℚ), (-1/100 : ℚ)) = false := by
    simp [sampleMasked]
  have hmask1 : sampleMasked Pex false false false 0 0 1 ((0 : ℚ), (0 : ℚ), (-1/50 : ℚ)) = false := by
    simp [sampleMasked]
  have hst1 : step Pex 0 false false false
      { points3D := [], point_indices := [], image_points2D := [[]] } (0, 0, 0) =
      { points3D := [{ id := 0, xyz := (0, 0, -1/100),
                       rgb := colorAt Pex 0 0 0, error := 1, track := [(0, 0)] }]
        point_indices := [(8441900073442563992, 0)]
        image_points2D := [[(0, 0, 0)]] } := by
    rw [step_accepted_new hconf0 rfl hmask0 (by rfl)]
    simp [kpCount, appendAt, hash_pexA]
  have hd : dictFind [((8441900073442563992 : ℤ), 0)]
      (hash_point ((0 : ℚ), (0 : ℚ), (-1/50 : ℚ)) 100) = some 0 := by
    rw [hash_pexB]
    exact dictFind_singleton_self _ 0
  have hst2 : step Pex 0 false false false
      { points3D := [{ id := 0, xyz := (0, 0, -1/100),
                       rgb := colorAt Pex 0 0 0, error := 1, track := [(0, 0)] }]
        point_indices := [(8441900073442563992, 0)]
        image_points2D := [[(0, 0, 0)]] } (0, 0, 1) =
      { points3D := [{ id := 0, xyz := (0, 0, -1/100),
                       rgb := colorAt Pex 0 0 0, error := 1,
                       track := [(0, 0), (0, 1)] }]
        point_indices := [(8441900073442563992, 0)]
        image_points2D := [[(0, 0, 0), (1, 0, 0)]] } := by
    rw [step_accepted_old hconf1 rfl hmask1 (by exact hd)]
    simp [kpCount, appendAt, appendTrack]
  rw [runAggregation, hsam, hinit, List.foldl_cons, hst1, List.foldl_cons, hst2,
    List.foldl_nil]

theorem Pex_fpp :
    filter_and_prepare_points Pex 0 false false false 1 =
      ([{ id := 0, xyz := (0, 0, -1/100), rgb := colorAt Pex 0 0 0,
          error := 1, track := [(0, 0), (0, 1)] }],
       [[(0, 0, 0), (1, 0, 0)]]) := by
  have hcut : (0 : ℚ) / 100 * globalMaxConf Pex = 0 := by simp
  simp only [filter_and_prepare_points]
  rw [hcut, Pex_run]

/-- Claim C1 is violated by the code: the two accepted samples of `Pex`
quantize to the distinct integer triples `(0, 0, -1)` and `(0, 0, -2)`, yet
both are assigned point id 0 and only one 3D point is created, because the
dict is keyed on CPython's `hash` of the triple and
`hash((0,0,-1)) = hash((0,0,-2))` (CPython maps `hash(-1)` to `-2`).  The
first half of the claim (equal triples get equal ids) is what the dict
lookup does; this theorem documents the failing second half at the concrete
input. -/
theorem spec_C1_hash_collision :
    quantize_point ((0 : ℚ), (0 : ℚ), (-1/100 : ℚ)) 100 ≠
      quantize_point ((0 : ℚ), (0 : ℚ), (-1/50 : ℚ)) 100 ∧
    (filter_and_prepare_points Pex 0 false false false 1).1.length = 1 ∧
    ((filter_and_prepare_points Pex 0 false false false 1).2.getD 0 []).map
      (fun e => e.2.2) = [0, 0] := by
  refine ⟨?_, ?_, ?_⟩
  · rw [quantize_pexA, quantize_pexB]
    decide
  · rw [Pex_fpp]
    rfl
  · rw [Pex_fpp]
    rfl

/-! ### Track and keypoint consistency -/

theorem getD_replicate_nil {α : Type} (n i : ℕ) :
    (List.replicate n ([] : List α)).getD i [] = [] := by
  induction n generalizing i with
  | zero => cases i <;> rfl
  | succ m ih =>
      cases i with
      | zero => rfl
      | succ j => simp [List.replicate, ih j]

theorem trackInv_init (preds : Predictions) : TrackInv (initState preds) := by
  refine ⟨rfl, ?_, ?_, ?_, ?_⟩
  · intro e he
    simp [initState] at he
  · intro j p hj
    simp [initState] at hj
  · intro i k hk
    simp only [initState, getD_replicate_nil, List.length_nil] at hk
    omega
  · intro i k hk
    simp [initState]

theorem trackInv_step (preds : Predictions) (cutoff : ℚ) (ms mb mw : Bool)
    (st : AggState) (s : ℕ × ℕ × ℕ)
    (hi : s.1 < st.image_points2D.length)
    (hinv : TrackInv st) : TrackInv (step preds cutoff ms mb mw st s) := by
  obtain ⟨hIds, hDict, hRef, hOnce, hNone⟩ := hinv
  rcases s with ⟨i, y, x⟩
  have hi2 : i < st.image_points2D.length := hi
  rcases step_cases preds cutoff ms mb mw st (i, y, x) with
    ⟨_, heq⟩ | ⟨p, _, _, _, _, hcase⟩
  · rw [heq]
    exact ⟨hIds, hDict, hRef, hOnce, hNone⟩
  rcases hcase with ⟨hdict, heq⟩ | ⟨idx, hdict, heq⟩
  · -- new-point branch
    rw [heq]
    dsimp only
    have hK2len : (appendAt st.image_points2D i (x, y, st.points3D.length)).length
        = st.image_points2D.length := appendAt_length _ _ _
    have hK2i : (appendAt st.image_points2D i (x, y, st.points3D.length)).getD i []
        = st.image_points2D.getD i [] ++ [(x, y, st.points3D.length)] :=
      appendAt_getD_self _ hi2 _
    have hK2ne : ∀ j, j ≠ i →
        (appendAt st.image_points2D i (x, y, st.points3D.length)).getD j []
          = st.image_points2D.getD j [] :=
      fun j hj => appendAt_getD_ne _ hj _ _
    refine ⟨?_, ?_, ?_, ?_, ?_⟩
    · simp only [List.map_append, List.map_cons, List.map_nil,
        List.length_append, List.length_cons, List.length_nil]
      rw [hIds]
      simp [List.range_succ]
    · intro e he
      rcases List.mem_append.mp he with h1 | h2
      · have := hDict e h1
        simp only [List.length_append, List.length_cons, List.length_nil]
        omega
      · simp only [List.mem_singleton] at h2
        subst h2
        simp only [List.length_append, List.length_cons, List.length_nil]
        omega
    · intro j p2 hj e he
      obtain ⟨hjl, _⟩ := List.getElem?_eq_some_iff.mp hj
      simp only [List.length_append, List.length_cons, List.length_nil] at hjl
      rcases Nat.lt_or_ge j st.points3D.length with hjn | hjn
      · rw [List.getElem?_append_left hjn] at hj
        obtain ⟨he1, he2, he3⟩ := hRef j p2 hj e he
        refine ⟨by rw [hK2len]; exact he1, ?_, ?_⟩
        · by_cases hei : e.1 = i
          · rw [hei, hK2i, List.length_append]
            rw [hei] at he2
            simp only [List.length_cons, List.length_nil]
            omega
          · rw [hK2ne e.1 hei]
            exact he2
        · by_cases hei : e.1 = i
          · rw [hei] at he2 he3
            rw [hei, hK2i, List.getD_append _ _ _ _ he2]
            exact he3
          · rw [hK2ne e.1 hei]
            exact he3
      · have hj2 : j = st.points3D.length := by omega
        subst hj2
        rw [List.getElem?_concat_length] at hj
        have hp2 : p2 =
            { id := st.points3D.length, xyz := p, rgb := colorAt preds i y x,
              error := 1, track := [(i, kpCount st i)] } :=
          (Option.some.injEq _ _).mp hj.symm
        subst hp2
        simp only [List.mem_singleton] at he
        subst he
        refine ⟨by rw [hK2len]; exact hi2, ?_, ?_⟩
        · rw [hK2i, List.length_append]
          simp only [List.length_cons, List.length_nil, kpCount]
          omega
        · rw [hK2i, List.getD_append_right _ _ _ _ (by simp [kpCount])]
          simp [kpCount]
    · intro i2 k hk
      simp only [List.map_append, List.map_cons, List.map_nil, List.sum_append,
        List.sum_cons, List.sum_nil]
      by_cases hii : i2 = i
      · subst hii
        rw [hK2i, List.length_append] at hk
        simp only [List.length_cons, List.length_nil] at hk
        by_cases hkc : k = kpCount st i2
        · subst hkc
          rw [hNone i2 (kpCount st i2) (le_refl _)]
          simp [List.count_singleton]
        · have hklt : k < (st.image_points2D.getD i2 []).length := by
            simp only [kpCount] at hkc
            omega
          rw [hOnce i2 k hklt]
          have hne : ((i2, kpCount st i2) : ℕ × ℕ) ≠ (i2, k) := by
            simp only [ne_eq, Prod.mk.injEq, not_and]
            exact fun _ hck => hkc hck.symm
          simp [List.count_singleton, hne]
      · rw [hK2ne i2 hii] at hk
        rw [hOnce i2 k hk]
        have hne : ((i, kpCount st i) : ℕ × ℕ) ≠ (i2, k) := by
          simp only [ne_eq, Prod.mk.injEq, not_and]
          intro hc
          exact absurd hc.symm hii
        simp [List.count_singleton, hne]
    · intro i2 k hk
      simp only [List.map_append, List.map_cons, List.map_nil, List.sum_append,
        List.sum_cons, List.sum_nil]
      by_cases hii : i2 = i
      · subst hii
        rw [hK2i, List.length_append] at hk
        simp only [List.length_cons, List.length_nil] at hk
        have hkge : (st.image_points2D.getD i2 []).length ≤ k := by omega
        rw [hNone i2 k hkge]
        have hne : ((i2, kpCount st i2) : ℕ × ℕ) ≠ (i2, k) := by
          simp only [ne_eq, Prod.mk.injEq, not_and, kpCount]
          intro _
          omega
        simp [List.count_singleton, hne]
      · rw [hK2ne i2 hii] at hk
        rw [hNone i2 k hk]
        have hne : ((i, kpCount st i) : ℕ × ℕ) ≠ (i2, k) := by
          simp only [ne_eq, Prod.mk.injEq, not_and]
          intro hc
          exact absurd hc.symm hii
        simp [List.count_singleton, hne]
  · -- existing-point branch
    rw [heq]
    dsimp only
    have hidx : idx < st.points3D.length := hDict _ (dictFind_mem hdict)
    have hK2len : (appendAt st.image_points2D i (x, y, idx)).length
        = st.image_points2D.length := appendAt_length _ _ _
    have hK2i : (appendAt st.image_points2D i (x, y, idx)).getD i []
        = st.image_points2D.getD i [] ++ [(x, y, idx)] :=
      appendAt_getD_self _ hi2 _
    have hK2ne : ∀ j, j ≠ i →
        (appendAt st.image_points2D i (x, y, idx)).getD j []
          = st.image_points2D.getD j [] :=
      fun j hj => appendAt_getD_ne _ hj _ _
    have hLidx : st.points3D[idx]? = some st.points3D[idx] :=
      List.getElem?_eq_getElem hidx
    refine ⟨?_, ?_, ?_, ?_, ?_⟩
    · rw [appendTrack_map_id, appendTrack_length]
      exact hIds
    · intro e he
      rw [appendTrack_length]
      exact hDict e he
    · intro j p2 hj e he
      by_cases hji : j = idx
      · subst hji
        rw [appendTrack_getElem?_self hLidx] at hj
        have hp2 : p2 =
            { st.points3D[j] with
              track := (st.points3D[j]).track ++ [(i, kpCount st i)] } :=
          (Option.some.injEq _ _).mp hj.symm
        subst hp2
        rcases List.mem_append.mp he with hold | hnew
        · obtain ⟨he1, he2, he3⟩ := hRef j _ hLidx e hold
          refine ⟨by rw [hK2len]; exact he1, ?_, ?_⟩
          · by_cases hei : e.1 = i
            · rw [hei, hK2i, List.length_append]
              rw [hei] at he2
              simp only [List.length_cons, List.length_nil]
              omega
            · rw [hK2ne e.1 hei]
              exact he2
          · by_cases hei : e.1 = i
            · rw [hei] at he2 he3
              rw [hei, hK2i, List.getD_append _ _ _ _ he2]
              exact he3
            · rw [hK2ne e.1 hei]
              exact he3
        · simp only [List.mem_singleton] at hnew
          subst hnew
          refine ⟨by rw [hK2len]; exact hi2, ?_, ?_⟩
          · rw [hK2i, List.length_append]
            simp only [List.length_cons, List.length_nil, kpCount]
            omega
          · rw [hK2i, List.getD_append_right _ _ _ _ (by simp [kpCount])]
            simp [kpCount]
      · rw [appendTrack_getElem?_ne hji] at hj
        obtain ⟨he1, he2, he3⟩ := hRef j p2 hj e he
        refine ⟨by rw [hK2len]; exact he1, ?_, ?_⟩
        · by_cases hei : e.1 = i
          · rw [hei, hK2i, List.length_append]
            rw [hei] at he2
            simp only [List.length_cons, List.length_nil]
            omega
          · rw [hK2ne e.1 hei]
            exact he2
        · by_cases hei : e.1 = i
          · rw [hei] at he2 he3
            rw [hei, hK2i, List.getD_append _ _ _ _ he2]
            exact he3
          · rw [hK2ne e.1 hei]
            exact he3
    · intro i2 k hk
      rw [appendTrack_count_sum _ hidx]
      by_cases hii : i2 = i
      · subst hii
        rw [hK2i, List.length_append] at hk
        simp only [List.length_cons, List.length_nil] at hk
        by_cases hkc : k = kpCount st i2
        · subst hkc
          rw [hNone i2 (kpCount st i2) (le_refl _)]
          simp
        · have hklt : k < (st.image_points2D.getD i2 []).length := by
            simp only [kpCount] at hkc ⊢
            omega
          rw [hOnce i2 k hklt]
          have hne : ((i2, kpCount st i2) : ℕ × ℕ) ≠ (i2, k) := by
            simp only [ne_eq, Prod.mk.injEq, not_and]
            exact fun _ hck => hkc hck.symm
          simp [hne]
      · rw [hK2ne i2 hii] at hk
        rw [hOnce i2 k hk]
        have hne : ((i, kpCount st i) : ℕ × ℕ) ≠ (i2, k) := by
          simp only [ne_eq, Prod.mk.injEq, not_and]
          intro hc
          exact absurd hc.symm hii
        simp [hne]
    · intro i2 k hk
      rw [appendTrack_count_sum _ hidx]
      by_cases hii : i2 = i
      · subst hii
        rw [hK2i, List.length_append] at hk
        simp only [List.length_cons, List.length_nil] at hk
        have hkge : (st.image_points2D.getD i2 []).length ≤ k := by omega
        rw [hNone i2 k hkge]
        have hne : ((i2, kpCount st i2) : ℕ × ℕ) ≠ (i2, k) := by
          simp only [ne_eq, Prod.mk.injEq, not_and, kpCount]
          intro _
          omega
        simp [hne]
      · rw [hK2ne i2 hii] at hk
        rw [hNone i2 k hk]
        have hne : ((i, kpCount st i) : ℕ × ℕ) ≠ (i2, k) := by
          simp only [ne_eq, Prod.mk.injEq, not_and]
          intro hc
          exact absurd hc.symm hii
        simp [hne]

theorem lt_of_mem_strideRange {n stride y : ℕ} (h : y ∈ strideRange n stride) :
    y < n := by
  rcases Nat.eq_zero_or_pos stride with h0 | h1
  · subst h0
    simp [strideRange, Nat.div_zero] at h
  · exact ((mem_strideRange_iff h1 n y).mp h).1

theorem mem_allSamples_bounds {preds : Predictions} {stride : ℕ}
    {s : ℕ × ℕ × ℕ} (h : s ∈ allSamples preds stride) :
    s.1 < preds.world_points_from_depth.length ∧
      s.2.1 < gridH preds s.1 ∧ s.2.2 < gridW preds s.1 := by
  unfold allSamples at h
  rcases List.mem_flatMap.mp h with ⟨i, hi, h2⟩
  rcases List.mem_flatMap.mp h2 with ⟨y, hy, h3⟩
  rcases List.mem_map.mp h3 with ⟨x, hx, rfl⟩
  exact ⟨by simpa using List.mem_range.mp hi,
    by simpa using lt_of_mem_strideRange hy,
    by simpa using lt_of_mem_strideRange hx⟩

theorem step_image_length (preds : Predictions) (cutoff : ℚ) (ms mb mw : Bool)
    (st : AggState) (s : ℕ × ℕ × ℕ) :
    (step preds cutoff ms mb mw st s).image_points2D.length
      = st.image_points2D.length := by
  rcases step_cases preds cutoff ms mb mw st s with ⟨_, heq⟩ | ⟨p, _, _, _, _, hcase⟩
  · rw [heq]
  · rcases hcase with ⟨_, heq⟩ | ⟨idx, _, heq⟩ <;> rw [heq] <;>
      exact appendAt_length _ _ _

theorem trackInv_run (preds : Predictions) (cutoff : ℚ) (ms mb mw : Bool)
    (stride : ℕ)
    (hlen : preds.world_points_from_depth.length ≤ preds.depth.length) :
    TrackInv (runAggregation preds cutoff ms mb mw stride) := by
  unfold runAggregation
  refine (foldl_preserve
    (fun st : AggState =>
      st.image_points2D.length = preds.depth.length ∧ TrackInv st)
    (step preds cutoff ms mb mw) (allSamples preds stride) (initState preds)
    ⟨by simp [initState], trackInv_init preds⟩ ?_).2
  intro st a ha hP
  obtain ⟨hL, hInv⟩ := hP
  have hi : a.1 < st.image_points2D.length := by
    rw [hL]
    exact lt_of_lt_of_le (mem_allSamples_bounds ha).1 hlen
  exact ⟨by rw [step_image_length]; exact hL,
    trackInv_step preds cutoff ms mb mw st a hi hInv⟩

/-- Claim C3: after any aggregation run (on shape-consistent inputs, i.e.
at least as many depth maps as point grids, which NumPy guarantees), every
(image index, keypoint index) pair of every point's track resolves to an
existing keypoint of that image whose stored point reference equals this
point's id, and every keypoint of every image occurs in exactly one track
entry across all points. -/
theorem spec_C3_track_keypoint_consistency (preds : Predictions) (t : ℚ)
    (ms mb mw : Bool) (stride : ℕ)
    (hlen : preds.world_points_from_depth.length ≤ preds.depth.length) :
    (∀ p ∈ (filter_and_prepare_points preds t ms mb mw stride).1,
       ∀ e ∈ p.track,
         e.1 < (filter_and_prepare_points preds t ms mb mw stride).2.length ∧
         e.2 < ((filter_and_prepare_points preds t ms mb mw stride).2.getD
           e.1 []).length ∧
         (((filter_and_prepare_points preds t ms mb mw stride).2.getD
           e.1 []).getD e.2 (0, 0, 0)).2.2 = p.id) ∧
    (∀ i k : ℕ,
       k < ((filter_and_prepare_points preds t ms mb mw stride).2.getD
         i []).length →
       ((filter_and_prepare_points preds t ms mb mw stride).1.map
         fun p => p.track.count (i, k)).sum = 1) := by
  have hrun := trackInv_run preds (t / 100 * globalMaxConf preds) ms mb mw
    stride hlen
  obtain ⟨hIds, hDict, hRef, hOnce, hNone⟩ := hrun
  simp only [filter_and_prepare_points]
  constructor
  · intro p hp e he
    obtain ⟨j, hj⟩ := List.mem_iff_getElem?.mp hp
    have h3 := hRef j p hj e he
    have hid : p.id = j := by
      obtain ⟨hjl, _⟩ := List.getElem?_eq_some_iff.mp hj
      have hm : ((runAggregation preds (t / 100 * globalMaxConf preds) ms mb mw
          stride).points3D.map PointEntry.id)[j]? = some p.id := by
        rw [List.getElem?_map, hj]
        rfl
      rw [hIds, List.getElem?_range hjl] at hm
      exact (Option.some.injEq _ _).mp hm.symm
    rw [hid]
    exact h3
  · intro i k hk
    exact hOnce i k hk

/-- Witness for `spec_C3_track_keypoint_consistency` on `Pex`: the keypoint
`(0, 0)` occurs in exactly one track entry. -/
theorem spec_C3_witness :
    ((filter_and_prepare_points Pex 0 false false false 1).1.map
       fun p => p.track.count (0, 0)).sum = 1 :=
  (spec_C3_track_keypoint_consistency Pex 0 false false false 1
    (by decide)).2 0 0 (by
      rw [Pex_fpp]
      decide)

/-! ### Point counting and threshold monotonicity -/

theorem nodup_keys_append (d : List (ℤ × ℕ)) (k : ℤ) (v : ℕ)
    (hnd : (d.map Prod.fst).Nodup) (hk : k ∉ d.map Prod.fst) :
    ((d ++ [(k, v)]).map Prod.fst).Nodup := by
  rw [List.map_append]
  have h1 : ([(k, v)].map Prod.fst) = [k] := rfl
  rw [h1]
  apply List.Nodup.append hnd (List.nodup_singleton k)
  intro a ha hb
  rw [List.mem_singleton] at hb
  subst hb
  exact hk ha

theorem keyInv_step (preds : Predictions) (cutoff : ℚ) (ms mb mw : Bool)
    (st : AggState) (s : ℕ × ℕ × ℕ) (h : KeyInv st) :
    KeyInv (step preds cutoff ms mb mw st s) := by
  obtain ⟨hlen, hnd⟩ := h
  rcases step_cases preds cutoff ms mb mw st s with ⟨_, heq⟩ | ⟨p, _, _, _, _, hcase⟩
  · rw [heq]
    exact ⟨hlen, hnd⟩
  · rcases hcase with ⟨hdict, heq⟩ | ⟨idx, hdict, heq⟩ <;> rw [heq]
    · constructor
      · dsimp only
        simp only [List.length_append, List.length_cons, List.length_nil, hlen]
      · dsimp only
        exact nodup_keys_append _ _ _ hnd
          (not_mem_keys_of_dictFind_none hdict)
    · refine ⟨?_, hnd⟩
      dsimp only
      rw [appendTrack_length]
      exact hlen

theorem keys_toFinset_step (preds : Predictions) (cutoff : ℚ) (ms mb mw : Bool)
    (st : AggState) (s : ℕ × ℕ × ℕ) :
    ((step preds cutoff ms mb mw st s).point_indices.map Prod.fst).toFinset =
      (st.point_indices.map Prod.fst).toFinset ∪
        (sampleKey preds cutoff ms mb mw s).toList.toFinset := by
  rcases step_cases preds cutoff ms mb mw st s with
    ⟨hkey, heq⟩ | ⟨p, _, _, _, hkey, hcase⟩
  · rw [heq, hkey]
    simp
  · rcases hcase with ⟨hdict, heq⟩ | ⟨idx, hdict, heq⟩ <;> rw [heq, hkey]
    · dsimp only
      rw [List.map_append, List.toFinset_append]
      simp
    · dsimp only
      have hk : hash_point p 100 ∈ st.point_indices.map Prod.fst :=
        mem_keys_of_dictFind_some hdict
      rw [Option.toList_some]
      have h2 : (([hash_point p 100] : List ℤ).toFinset : Finset ℤ)
          = {hash_point p 100} := rfl
      rw [h2, Finset.union_eq_left.mpr
        (Finset.singleton_subset_iff.mpr (List.mem_toFinset.mpr hk))]

theorem keys_toFinset_foldl (preds : Predictions) (cutoff : ℚ) (ms mb mw : Bool)
    (l : List (ℕ × ℕ × ℕ)) (st : AggState) :
    (((l.foldl (step preds cutoff ms mb mw) st).point_indices.map
        Prod.fst).toFinset) =
      (st.point_indices.map Prod.fst).toFinset ∪
        (l.filterMap (sampleKey preds cutoff ms mb mw)).toFinset := by
  induction l generalizing st with
  | nil => simp
  | cons a l2 ih =>
      rw [List.foldl_cons, ih, keys_toFinset_step, List.filterMap_cons]
      cases hk : sampleKey preds cutoff ms mb mw a
      · simp
      · simp [Finset.insert_eq, Finset.union_assoc]

theorem points_len_eq_card (preds : Predictions) (cutoff : ℚ) (ms mb mw : Bool)
    (stride : ℕ) :
    (runAggregation preds cutoff ms mb mw stride).points3D.length =
      ((allSamples preds stride).filterMap
        (sampleKey preds cutoff ms mb mw)).toFinset.card := by
  have hKI : KeyInv (runAggregation preds cutoff ms mb mw stride) := by
    unfold runAggregation
    apply foldl_preserve (fun st : AggState => KeyInv st)
    · exact ⟨rfl, List.nodup_nil⟩
    · intro st a ha h
      exact keyInv_step preds cutoff ms mb mw st a h
  obtain ⟨hlen, hnd⟩ := hKI
  have hfin := keys_toFinset_foldl preds cutoff ms mb mw
    (allSamples preds stride) (initState preds)
  rw [← hlen, ← List.length_map _ Prod.fst,
    ← List.toFinset_card_of_nodup hnd]
  unfold runAggregation
  rw [hfin]
  simp [initState]

theorem sampleKey_mono {preds : Predictions} {c1 c2 : ℚ} (h12 : c1 ≤ c2)
    {ms mb mw : Bool} {s : ℕ × ℕ × ℕ} {k : ℤ}
    (h : sampleKey preds c2 ms mb mw s = some k) :
    sampleKey preds c1 ms mb mw s = some k := by
  unfold sampleKey at h ⊢
  by_cases hc : c2 < confAt preds s.1 s.2.1 s.2.2
  · rw [if_pos hc] at h
    rw [if_pos (lt_of_le_of_lt h12 hc)]
    exact h
  · rw [if_neg hc] at h
    cases h

theorem le_foldl_max (l : List ℚ) (b : ℚ) :
    b ≤ l.foldl max b ∧ ∀ a ∈ l, a ≤ l.foldl max b := by
  induction l generalizing b with
  | nil => exact ⟨le_refl b, by simp⟩
  | cons c cs ih =>
      constructor
      · exact le_trans (le_max_left b c) (ih (max b c)).1
      · intro a ha
        rcases List.mem_cons.mp ha with rfl | ha2
        · exact le_trans (le_max_right b a) (ih (max b a)).1
        · exact (ih (max b c)).2 a ha2

theorem le_globalMaxConf {preds : Predictions} {v : ℚ}
    (hv : v ∈ preds.depth_conf.flatten.flatten) :
    v ≤ globalMaxConf preds := by
  unfold globalMaxConf
  cases hfl : preds.depth_conf.flatten.flatten with
  | nil =>
      rw [hfl] at hv
      cases hv
  | cons c cs =>
      rw [hfl] at hv
      rcases List.mem_cons.mp hv with rfl | hv2
      · exact (le_foldl_max cs v).1
      · exact (le_foldl_max cs c).2 v hv2

theorem confAt_le_globalMaxConf {preds : Predictions} (hsh : SameShape preds)
    {i y x : ℕ} (hiN : i < preds.world_points_from_depth.length)
    (hy : y < gridH preds i) (hx : x < gridW preds i) :
    confAt preds i y x ≤ globalMaxConf preds := by
  obtain ⟨hS, hI⟩ := hsh
  obtain ⟨hrow, hcol⟩ := hI i hiN
  have hiC : i < preds.depth_conf.length := by
    rw [hS]
    exact hiN
  have hyC : y < (preds.depth_conf.getD i []).length := by
    rw [hrow]
    exact hy
  have hxC : x < ((preds.depth_conf.getD i []).getD y []).length := by
    rw [hcol y hy]
    exact hx
  apply le_globalMaxConf
  have h1 : (preds.depth_conf.getD i []) ∈ preds.depth_conf := by
    rw [List.getD_eq_getElem _ _ hiC]
    exact List.getElem_mem hiC
  have h2 : ((preds.depth_conf.getD i []).getD y [])
      ∈ (preds.depth_conf.getD i []) := by
    rw [List.getD_eq_getElem _ _ hyC]
    exact List.getElem_mem hyC
  have h3 : confAt preds i y x ∈ ((preds.depth_conf.getD i []).getD y []) := by
    unfold confAt
    rw [List.getD_eq_getElem _ _ hxC]
    exact List.getElem_mem hxC
  exact List.mem_flatten.mpr ⟨_, List.mem_flatten.mpr ⟨_, h1, h2⟩, h3⟩

theorem cutoff_mono {m t1 t2 : ℚ} (hm : 0 ≤ m) (h12 : t1 ≤ t2) :
    t1 / 100 * m ≤ t2 / 100 * m := by
  have h : t1 / 100 ≤ t2 / 100 := by linarith
  exact mul_le_mul_of_nonneg_right h hm

theorem cutoff_ge_max {m t : ℚ} (hm : m < 0) (ht100 : t ≤ 100) :
    m ≤ t / 100 * m := by
  have h1 : 0 ≤ 1 - t / 100 := by linarith
  have h2 : 0 ≤ (1 - t / 100) * (-m) := mul_nonneg h1 (by linarith)
  nlinarith [h2]

/-- Claim C6: for fixed inputs (of consistent confidence/point grid shapes,
as NumPy guarantees), stride and filter flags, running the aggregator with a
higher confidence threshold percentage (within the 0-100 range of the CLI
contract) never yields more 3D points than running it with a lower one. -/
theorem spec_C6_threshold_monotone (preds : Predictions) (ms mb mw : Bool)
    (stride : ℕ) (t1 t2 : ℚ) (h12 : t1 ≤ t2) (h100 : t2 ≤ 100)
    (hsh : SameShape preds) :
    (filter_and_prepare_points preds t2 ms mb mw stride).1.length ≤
      (filter_and_prepare_points preds t1 ms mb mw stride).1.length := by
  simp only [filter_and_prepare_points]
  rw [points_len_eq_card, points_len_eq_card]
  apply Finset.card_le_card
  intro k hk
  rw [List.mem_toFinset, List.mem_filterMap] at hk
  rw [List.mem_toFinset, List.mem_filterMap]
  obtain ⟨a, ha, hka⟩ := hk
  refine ⟨a, ha, ?_⟩
  rcases le_or_lt 0 (globalMaxConf preds) with hm | hm
  · exact sampleKey_mono (cutoff_mono hm h12) hka
  · exfalso
    obtain ⟨hiN, hy, hx⟩ := mem_allSamples_bounds ha
    have hconf : confAt preds a.1 a.2.1 a.2.2 ≤ globalMaxConf preds :=
      confAt_le_globalMaxConf hsh hiN hy hx
    have hcut : globalMaxConf preds ≤ t2 / 100 * globalMaxConf preds :=
      cutoff_ge_max hm h100
    unfold sampleKey at hka
    rw [if_neg (not_lt.mpr (le_trans hconf hcut))] at hka
    cases hka

/-- Witness for `spec_C6_threshold_monotone` on `Pex` with thresholds 30
and 60. -/
theorem spec_C6_witness :
    (filter_and_prepare_points Pex 60 false false false 1).1.length ≤
      (filter_and_prepare_points Pex 30 false false false 1).1.length :=
  spec_C6_threshold_monotone Pex false false false 1 30 60 (by norm_num)
    (by norm_num) (by
      unfold SameShape
      decide)

end VggtToColmap
